import Mathlib

/-!
Verification of the parallel factor exploration scheduler of this repository
(`src/phase1/parallel_explorer.py`) and its caching layer
(`src/utils/factor_cache.py`), as a shallow embedding.

Modelling conventions:
* Python dicts are association lists with Python-dict update semantics
  (`dictSet` replaces in place, else appends); lookup is first-match.
* Exceptions are `Except String`; stateful methods return `... × ExpState`
  so that object state survives a raised exception, as it does in Python.
* External collaborators (hash function, serializers, data loader, signal
  generators, backtest engines) are parameters of the environment, exactly
  as they are injected into `ParallelFactorExplorer.__init__`.
* The behaviour of the process pool that is outside the program's control
  (completion order of `as_completed`, a task failing inside a worker
  process, the pool machinery itself raising a platform-level startup
  error of the `NotImplementedError`/`PermissionError`/`OSError` class)
  is an explicit oracle `PoolOracle`.  Errors raised by the modelled
  compute functions themselves are generic (never of the startup class),
  matching ordinary per-task compute failures.
-/

namespace HK

/-- Python dict lookup on an association list (first matching key). -/
def dictGet {K V : Type} [DecidableEq K] : List (K × V) → K → Option V
  | [], _ => none
  | (k', v) :: rest, k => if k' = k then some v else dictGet rest k

/-- Python dict assignment: replace the value in place if the key exists,
otherwise append the binding at the end. -/
def dictSet {K V : Type} [DecidableEq K] : List (K × V) → K → V → List (K × V)
  | [], k, v => [(k, v)]
  | (k', v') :: rest, k, v =>
      if k' = k then (k, v) :: rest else (k', v') :: dictSet rest k v

/-- A Python data value as seen by the cache and the explorer: either
`None`, or a pandas DataFrame (a list of rows, each row rendered as the
string the serializer would see), or an arbitrary object carrying its
`repr` string and the outcome of `pickle.dumps` (`none` models a raising
pickle). -/
inductive PyVal where
  | pynone : PyVal
  | frame (rows : List String) : PyVal
  | obj (reprStr : String) (pickled : Option String) : PyVal
  deriving DecidableEq, Repr

/-- External serialization collaborators used by
`FactorCache.compute_signature`: the SHA-1 hex digest and the
deterministic DataFrame-to-JSON rendering, abstract here. -/
structure SerEnv where
  sha1 : String → String
  toJson : List String → String

/-- `CacheStats` of `src/utils/factor_cache.py`. -/
structure CacheStats where
  hits : Nat := 0
  misses : Nat := 0
  stores : Nat := 0
  deriving DecidableEq, Repr

/-- `CacheStats.snapshot`: the stats as a serialisable triple. -/
def CacheStats.snapshot (s : CacheStats) : Nat × Nat × Nat :=
  (s.hits, s.misses, s.stores)

/-- A cached result payload: the Python result dict, values rendered
as strings. -/
abbrev Payload := List (String × String)

/-- Cache keys of `FactorCache._make_key`:
`(symbol, timeframe, factor_name, data_signature)`. -/
abbrev CacheKey := String × String × String × String

/-- `FactorCache`: the guarded map together with its statistics. -/
structure FactorCache where
  data : List (CacheKey × Payload) := []
  stats : CacheStats := {}
  deriving DecidableEq, Repr

namespace FactorCache

/-- `FactorCache._make_key`: absent signature means no key. -/
def make_key (symbol timeframe factor_name : String)
    (data_signature : Option String) : Option CacheKey :=
  match data_signature with
  | none => none
  | some sig => some (symbol, timeframe, factor_name, sig)

/-- `FactorCache.get`: returns the cached payload if available and the
cache with its statistics advanced (one hit or one miss per call). -/
def get (c : FactorCache) (symbol timeframe factor_name : String)
    (data_signature : Option String) : Option Payload × FactorCache :=
  match make_key symbol timeframe factor_name data_signature with
  | none =>
      (none, { c with stats := { c.stats with misses := c.stats.misses + 1 } })
  | some key =>
      match dictGet c.data key with
      | some cached =>
          (some cached, { c with stats := { c.stats with hits := c.stats.hits + 1 } })
      | none =>
          (none, { c with stats := { c.stats with misses := c.stats.misses + 1 } })

/-- `FactorCache.set`: persist the result; a no-op when the signature is
absent. -/
def set (c : FactorCache) (symbol timeframe factor_name : String)
    (data_signature : Option String) (result : Payload) : FactorCache :=
  match make_key symbol timeframe factor_name data_signature with
  | none => c
  | some key =>
      { c with data := dictSet c.data key result,
               stats := { c.stats with stores := c.stats.stores + 1 } }

/-- `FactorCache.clear`: empty the store and reset the statistics. -/
def clear (_c : FactorCache) : FactorCache := { data := [], stats := {} }

/-- `FactorCache.compute_signature`: `None` for an absent dataset; for a
DataFrame, the digest of the serialized trailing sample of at most 200
rows; for anything else, the digest of the pickled bytes, or of the
`repr` rendering when pickling raises. -/
def compute_signature (ser : SerEnv) : PyVal → Option String
  | .pynone => none
  | .frame rows =>
      some (ser.sha1 (ser.toJson (rows.drop (rows.length - min rows.length 200))))
  | .obj reprStr pickled =>
      match pickled with
      | some bytes => some (ser.sha1 bytes)
      | none => some (ser.sha1 reprStr)

end FactorCache

/-- A factor descriptor (`FactorCalculator`): a name and the
`generate_signals(symbol, timeframe, data)` capability, which may raise. -/
structure FactorCalculator (Sig : Type) where
  name : String
  generate_signals : String → String → PyVal → Except String Sig

/-- The immutable configuration of a `ParallelFactorExplorer` instance:
the constructor arguments plus the external collaborators.  `load` is
`data_loader.load`, `engine_factory s` is the engine built by
`backtest_engine_factory(s)` exposing `backtest_factor(data, signals)`,
and `now` is the formatted UTC timestamp `_format_result` would default
`exploration_date` to. -/
structure ExplorerEnv (Sig : Type) where
  symbol : String
  timeframes : List String
  factors : List (FactorCalculator Sig)
  load : String → String → Except String PyVal
  engine_factory : String → PyVal → Sig → Except String Payload
  now : String
  ser : SerEnv

/-- The mutable state of a `ParallelFactorExplorer` instance:
`factor_cache`, `_progress_logged`, the sticky `_process_pool_supported`
flag, the progress lines logged during the current
`explore_all_factors` call, and the count of pool-degradation warnings
logged over the instance lifetime. -/
structure ExpState where
  cache : FactorCache := {}
  progress_logged : Nat := 0
  process_pool_supported : Bool := true
  progress_log : List Nat := []
  pool_warnings : Nat := 0
  deriving DecidableEq, Repr

/-- `ParallelFactorExplorer._log_progress`: skip when the total is not
positive or when `completed` equals the last recorded value, otherwise
record and log `completed`. -/
def _log_progress (st : ExpState) (completed total : Nat) : ExpState :=
  if total = 0 then st
  else if completed = st.progress_logged then st
  else { st with progress_logged := completed,
                 progress_log := st.progress_log ++ [completed] }

/-- Python `dict.setdefault`: insert the pair only when the key is
absent. -/
def setdefault (d : Payload) (k v : String) : Payload :=
  if (dictGet d k).isSome then d else d ++ [(k, v)]

/-- `_format_result`: copy the backtest dict and default the `symbol`,
`timeframe`, `factor` and `exploration_date` fields. -/
def _format_result (symbol timeframe factorName now : String)
    (backtest : Payload) : Payload :=
  setdefault
    (setdefault (setdefault (setdefault backtest "symbol" symbol)
        "timeframe" timeframe) "factor" factorName)
    "exploration_date" now

/-- `_worker_task`: what one worker process computes for one unit —
build an engine from the factory, generate the signals, backtest, and
return the keyed formatted result. -/
def _worker_task {Sig : Type} (env : ExplorerEnv Sig) (timeframe : String)
    (factor : FactorCalculator Sig) (data : PyVal) :
    Except String (String × Payload) := do
  let engine := env.engine_factory env.symbol
  let signals ← factor.generate_signals env.symbol timeframe data
  let backtest ← engine data signals
  pure (timeframe ++ "_" ++ factor.name,
        _format_result env.symbol timeframe factor.name env.now backtest)

/-- `ParallelFactorExplorer._compute_locally`: the same computation as a
worker, run in the orchestrating process. -/
def _compute_locally {Sig : Type} (env : ExplorerEnv Sig) (timeframe : String)
    (factor : FactorCalculator Sig) (data : PyVal) : Except String Payload := do
  let engine := env.engine_factory env.symbol
  let signals ← factor.generate_signals env.symbol timeframe data
  let backtest ← engine data signals
  pure (_format_result env.symbol timeframe factor.name env.now backtest)

/-- `ParallelFactorExplorer.explore_single_factor`: load the dataset if
none is supplied, then compute locally; no instance state is touched. -/
def explore_single_factor {Sig : Type} (env : ExplorerEnv Sig) (st : ExpState)
    (timeframe : String) (factor : FactorCalculator Sig) (data : Option PyVal) :
    Except String Payload × ExpState :=
  match data with
  | some d => (_compute_locally env timeframe factor d, st)
  | none =>
      match env.load env.symbol timeframe with
      | .error m => (.error m, st)
      | .ok d => (_compute_locally env timeframe factor d, st)

/-- The `_Task` dataclass: one pending work unit. -/
structure WorkTask (Sig : Type) where
  timeframe : String
  factor : FactorCalculator Sig
  data : PyVal
  signature : Option String

/-- The result-map key `f"\x7btimeframe\x7d_\x7bfactor.name\x7d"` of a task. -/
def WorkTask.key {Sig : Type} (t : WorkTask Sig) : String :=
  t.timeframe ++ "_" ++ t.factor.name

/-- The local variables threaded through `_build_tasks`. -/
structure BuildAcc (Sig : Type) where
  tasks : List (WorkTask Sig)
  dataset : List (String × PyVal)
  results : List (String × Payload)
  completed : Nat
  st : ExpState

/-- The inner loop of `_build_tasks` over the factors of one timeframe:
a cache hit goes straight into the result map and advances progress, a
miss enqueues a task. -/
def buildFactorLoop {Sig : Type} (env : ExplorerEnv Sig) (total : Nat)
    (timeframe : String) (data : PyVal) (signature : Option String) :
    List (FactorCalculator Sig) → BuildAcc Sig → BuildAcc Sig
  | [], acc => acc
  | factor :: rest, acc =>
      let key := timeframe ++ "_" ++ factor.name
      let (cached, cache2) :=
        acc.st.cache.get env.symbol timeframe factor.name signature
      let st2 := { acc.st with cache := cache2 }
      match cached with
      | some payload =>
          let results2 := dictSet acc.results key payload
          let completed2 := acc.completed + 1
          let st3 := _log_progress st2 completed2 total
          buildFactorLoop env total timeframe data signature rest
            ⟨acc.tasks, acc.dataset, results2, completed2, st3⟩
      | none =>
          buildFactorLoop env total timeframe data signature rest
            ⟨acc.tasks ++ [⟨timeframe, factor, data, signature⟩],
             acc.dataset, acc.results, acc.completed, st2⟩

/-- The outer loop of `_build_tasks` over the timeframes: load each
dataset once, fingerprint it once, then scan the factors.  A failing
load propagates (upstream-fatal), carrying the state reached so far. -/
def buildTimeframeLoop {Sig : Type} (env : ExplorerEnv Sig) (total : Nat) :
    List String → BuildAcc Sig → Except (String × ExpState) (BuildAcc Sig)
  | [], acc => .ok acc
  | timeframe :: rest, acc =>
      match env.load env.symbol timeframe with
      | .error m => .error (m, acc.st)
      | .ok data =>
          let signature := FactorCache.compute_signature env.ser data
          let acc2 := buildFactorLoop env total timeframe data signature
            env.factors { acc with dataset := dictSet acc.dataset timeframe data }
          buildTimeframeLoop env total rest acc2

/-- `ParallelFactorExplorer._build_tasks`. -/
def _build_tasks {Sig : Type} (env : ExplorerEnv Sig) (st : ExpState) :
    Except (String × ExpState) (BuildAcc Sig) :=
  buildTimeframeLoop env (env.timeframes.length * env.factors.length)
    env.timeframes ⟨[], [], [], 0, st⟩

/-- The behaviour of the process pool that is outside the program:
`order` is the order in which `as_completed` yields the submitted tasks
(as indices into the pending list), `taskFail i` says the future of task
`i` raises inside its worker, and `poolFail = some k` says the pool
machinery itself raises a startup-class error
(`NotImplementedError`/`PermissionError`/`OSError`) after `k`
completions have been processed (`k = 0`: pool creation fails). -/
structure PoolOracle where
  order : List Nat
  taskFail : Nat → Bool
  poolFail : Option Nat

/-- Outcome of the `POOL`-mode dispatch block: finished normally, the
pool raised a startup-class error (caught by the explorer), or some
other exception escaped (propagates to the caller). -/
inductive PoolOutcome where
  | done (results : List (String × Payload)) (completed : Nat) (st : ExpState)
  | startupFail (results : List (String × Payload)) (completed : Nat) (st : ExpState)
  | raised (msg : String) (st : ExpState)

/-- The `POOL`-mode dispatch loop of `explore_all_factors`: process the
futures in completion order; a worker failure is logged and the unit is
recomputed locally; a successful result is merged, written through to
the cache when the fingerprint is present, and progress advances.  The
advisory `_check_memory` sample only logs and is not modelled. -/
def poolLoop {Sig : Type} (env : ExplorerEnv Sig) (tasks : List (WorkTask Sig))
    (dataset : List (String × PyVal)) (total : Nat) (O : PoolOracle) :
    List Nat → Nat → List (String × Payload) → Nat → ExpState → PoolOutcome
  | order, processed, results, completed, st =>
      if O.poolFail = some processed then .startupFail results completed st
      else
        match order with
        | [] => .done results completed st
        | i :: rest =>
            match tasks[i]? with
            | none => .raised "invalid completion order" st
            | some task =>
                let key := task.timeframe ++ "_" ++ task.factor.name
                let workerRes : Except String Payload :=
                  if O.taskFail i then .error "worker failure"
                  else (_worker_task env task.timeframe task.factor task.data).map Prod.snd
                let attempt : Except String Payload :=
                  match workerRes with
                  | .ok p => .ok p
                  | .error _ =>
                      match dictGet dataset task.timeframe with
                      | none => .error "KeyError"
                      | some d => _compute_locally env task.timeframe task.factor d
                match attempt with
                | .error m => .raised m st
                | .ok result =>
                    let results2 := dictSet results key result
                    let st2 :=
                      if task.signature.isSome then
                        { st with cache := (st.cache.set env.symbol task.timeframe
                            task.factor.name task.signature result) }
                      else st
                    let completed2 := completed + 1
                    let st3 := _log_progress st2 completed2 total
                    poolLoop env tasks dataset total O rest (processed + 1)
                      results2 completed2 st3

/-- `ParallelFactorExplorer._execute_sequential`: run every task
synchronously in submission order; a failing unit is logged and skipped,
a successful one is merged, cached and counted exactly as on the pool
success path. -/
def seqLoop {Sig : Type} (env : ExplorerEnv Sig)
    (dataset : List (String × PyVal)) (total : Nat) :
    List (WorkTask Sig) → List (String × Payload) → Nat → ExpState →
    List (String × Payload) × ExpState
  | [], results, _completed, st => (results, st)
  | task :: rest, results, completed, st =>
      let key := task.timeframe ++ "_" ++ task.factor.name
      let attempt : Except String Payload :=
        match dictGet dataset task.timeframe with
        | none => .error "KeyError"
        | some d => _compute_locally env task.timeframe task.factor d
      match attempt with
      | .error _ => seqLoop env dataset total rest results completed st
      | .ok result =>
          let results2 := dictSet results key result
          let st2 :=
            if task.signature.isSome then
              { st with cache := (st.cache.set env.symbol task.timeframe
                  task.factor.name task.signature result) }
            else st
          let completed2 := completed + 1
          let st3 := _log_progress st2 completed2 total
          seqLoop env dataset total rest results2 completed2 st3

/-- `ParallelFactorExplorer.explore_all_factors`: reset the per-call
progress tracking, build the work units, return directly when nothing is
pending, dispatch sequentially when the pool has been permanently
downgraded, otherwise dispatch on the pool; a startup-class pool failure
flips the sticky flag, logs one warning and re-executes every pending
unit synchronously in the same call. -/
def explore_all_factors {Sig : Type} (env : ExplorerEnv Sig) (st : ExpState)
    (O : PoolOracle) : Except String (List (String × Payload)) × ExpState :=
  let stR := { st with progress_logged := 0, progress_log := [] }
  match _build_tasks env stR with
  | .error (m, st1) => (.error m, st1)
  | .ok acc =>
      let total := env.timeframes.length * env.factors.length
      let completed := acc.results.length
      if acc.tasks.isEmpty then (.ok acc.results, acc.st)
      else if acc.st.process_pool_supported = false then
        let (res2, st2) := seqLoop env acc.dataset total acc.tasks acc.results
          completed acc.st
        (.ok res2, st2)
      else
        match poolLoop env acc.tasks acc.dataset total O O.order 0 acc.results
            completed acc.st with
        | .done res2 _ st2 => (.ok res2, st2)
        | .startupFail res2 comp2 st2 =>
            let st3 := { st2 with process_pool_supported := false,
                                  pool_warnings := st2.pool_warnings + 1 }
            let (res3, st4) := seqLoop env acc.dataset total acc.tasks res2
              comp2 st3
            (.ok res3, st4)
        | .raised m st2 => (.error m, st2)

/-- `ParallelFactorExplorer.process_pool_available`
(`is_pool_available`). -/
def process_pool_available (st : ExpState) : Bool := st.process_pool_supported

/-- `ParallelFactorExplorer.cache_stats`: the snapshot of the cache
statistics. -/
def cache_stats (st : ExpState) : Nat × Nat × Nat := st.cache.stats.snapshot

/-- All result-map keys of the exploration grid, in build order. -/
def allKeys {Sig : Type} (env : ExplorerEnv Sig) : List String :=
  env.timeframes.flatMap fun tf => env.factors.map fun f => tf ++ "_" ++ f.name

/-- What a direct synchronous computation of a task produces. -/
def localResult {Sig : Type} (env : ExplorerEnv Sig) (t : WorkTask Sig) :
    Except String Payload :=
  _compute_locally env t.timeframe t.factor t.data

/-- The payload a direct synchronous computation of a task produces,
defaulting to the empty dict when the computation raises. -/
def localValD {Sig : Type} (env : ExplorerEnv Sig) (t : WorkTask Sig) : Payload :=
  ((localResult env t).toOption).getD []

/-- Fold a list of bindings into a dict, later bindings overriding. -/
def dictSets {K V : Type} [DecidableEq K] (l : List (K × V))
    (kvs : List (K × V)) : List (K × V) :=
  kvs.foldl (fun r kv => dictSet r kv.1 kv.2) l

/-- The cache lookup the build phase performs for one grid cell, as a
function of the cache contents at the start of the call (the build
phase never writes to the cache, so its lookups all read the same
contents). -/
def cachedVal {Sig : Type} (env : ExplorerEnv Sig) (cd : List (CacheKey × Payload))
    (timeframe : String) (signature : Option String) (f : FactorCalculator Sig) :
    Option Payload :=
  match FactorCache.make_key env.symbol timeframe f.name signature with
  | none => none
  | some k => dictGet cd k

/-- The factors of one timeframe that hit the cache during the build
phase. -/
def hitsOf {Sig : Type} (env : ExplorerEnv Sig) (cd : List (CacheKey × Payload))
    (timeframe : String) (signature : Option String)
    (fs : List (FactorCalculator Sig)) : List (FactorCalculator Sig) :=
  fs.filter fun f => (cachedVal env cd timeframe signature f).isSome

/-- The factors of one timeframe that miss the cache during the build
phase. -/
def missesOf {Sig : Type} (env : ExplorerEnv Sig) (cd : List (CacheKey × Payload))
    (timeframe : String) (signature : Option String)
    (fs : List (FactorCalculator Sig)) : List (FactorCalculator Sig) :=
  fs.filter fun f => !(cachedVal env cd timeframe signature f).isSome

/-- The result-map bindings produced by the cache hits of one
timeframe. -/
def hitPairs {Sig : Type} (env : ExplorerEnv Sig) (cd : List (CacheKey × Payload))
    (timeframe : String) (signature : Option String)
    (fs : List (FactorCalculator Sig)) : List (String × Payload) :=
  (hitsOf env cd timeframe signature fs).map fun f =>
    (timeframe ++ "_" ++ f.name, (cachedVal env cd timeframe signature f).getD [])

/-- The pending work units the build phase produces, given the cache
contents at the start of the call and the per-timeframe loaded
datasets. -/
def gridMisses {Sig : Type} (env : ExplorerEnv Sig) (cd : List (CacheKey × Payload))
    (D : String → PyVal) (tfs : List String) : List (WorkTask Sig) :=
  tfs.flatMap fun tf =>
    (missesOf env cd tf (FactorCache.compute_signature env.ser (D tf)) env.factors).map
      fun f => ⟨tf, f, D tf, FactorCache.compute_signature env.ser (D tf)⟩

/-- The result-map bindings the build phase takes straight from the
cache, given the cache contents at the start of the call and the
per-timeframe loaded datasets. -/
def gridHitPairs {Sig : Type} (env : ExplorerEnv Sig) (cd : List (CacheKey × Payload))
    (D : String → PyVal) (tfs : List String) : List (String × Payload) :=
  tfs.flatMap fun tf =>
    hitPairs env cd tf (FactorCache.compute_signature env.ser (D tf)) env.factors

/-- The cache entries written through while dispatching a list of tasks
whose computations all succeed (one write per task with a present
fingerprint). -/
def cacheWrites {Sig : Type} (env : ExplorerEnv Sig) (ts : List (WorkTask Sig)) :
    List (CacheKey × Payload) :=
  (ts.filter fun t => t.signature.isSome).map fun t =>
    ((env.symbol, t.timeframe, t.factor.name, t.signature.getD ""), localValD env t)

/-- The tasks a completion order selects from the pending list. -/
def tasksAt {Sig : Type} (tasks : List (WorkTask Sig)) (order : List Nat) :
    List (WorkTask Sig) :=
  order.filterMap fun i => tasks[i]?

/-- The state carried by any outcome of the pool dispatch block. -/
def PoolOutcome.state : PoolOutcome → ExpState
  | .done _ _ st => st
  | .startupFail _ _ st => st
  | .raised _ st => st

/-- One cache operation of the public `FactorCache` interface. -/
inductive CacheOp where
  | get (symbol timeframe factor_name : String) (sig : Option String)
  | set (symbol timeframe factor_name : String) (sig : Option String) (v : Payload)
  | clear

/-- Apply one cache operation to a cache (the value a `get` returns is
dropped; only the state evolution matters here). -/
def applyOp (c : FactorCache) : CacheOp → FactorCache
  | .get s tf fn sig => (c.get s tf fn sig).2
  | .set s tf fn sig v => c.set s tf fn sig v
  | .clear => c.clear

/-- Run a sequence of cache operations. -/
def runOps (c : FactorCache) (ops : List CacheOp) : FactorCache :=
  ops.foldl applyOp c

/-- Fold step counting the `get` calls issued since the most recent
`clear` (a `clear` resets the count). -/
def getCount (acc : Nat) : CacheOp → Nat
  | .get _ _ _ _ => acc + 1
  | .set _ _ _ _ _ => acc
  | .clear => 0

/-- The number of `get` calls since the last `clear` in a trace (or
since construction when no `clear` occurs). -/
def getsSinceClear (ops : List CacheOp) : Nat :=
  ops.foldl getCount 0

/-- The explorer state carried by either outcome of the build phase. -/
def buildOutState {Sig : Type} : Except (String × ExpState) (BuildAcc Sig) → ExpState
  | .ok B => B.st
  | .error (_, s) => s

/-- Invariant tying the progress log to the progress counter: the log
is strictly increasing, bounded by the last recorded value, which never
exceeds the number of resolved units. -/
def LogInv (st : ExpState) (completed : Nat) : Prop :=
  List.Chain' (· < ·) st.progress_log ∧
  (∀ x ∈ st.progress_log, x ≤ st.progress_logged) ∧
  st.progress_logged ≤ completed

def PoolOutcome.logOk : PoolOutcome → Prop
  | .done _ c s => LogInv s c
  | .startupFail _ c s => LogInv s c
  | .raised _ s => List.Chain' (· < ·) s.progress_log

section ConcreteInstances

/-- An abstract digest for the concrete instances. -/
def serW : SerEnv := ⟨fun s => String.append "#" s, fun rows => String.intercalate "|" rows⟩

/-- The loaded dataset of the concrete instances: one row per
timeframe. -/
def DW : String → PyVal := fun tf => PyVal.frame [tf]

/-- A deterministic loader. -/
def loadW : String → String → Except String PyVal := fun _ tf => .ok (DW tf)

/-- A deterministic backtest engine: summarises the signal. -/
def engineW : String → PyVal → Nat → Except String Payload :=
  fun _ _ n => .ok [("sharpe", toString n)]

/-- A well-behaved factor: counts the rows of the dataset. -/
def facOk (nm : String) : FactorCalculator Nat :=
  ⟨nm, fun _ _ d =>
    match d with
    | .frame rows => .ok rows.length
    | _ => .ok 0⟩

/-- A permanently failing factor: its computation always raises. -/
def facBad (nm : String) : FactorCalculator Nat :=
  ⟨nm, fun _ _ _ => .error "boom"⟩

/-- Scenario A environment: two timeframes, three indicators. -/
def envA : ExplorerEnv Nat :=
  ⟨"0700.HK", ["1m", "5m"], [facOk "A", facOk "B", facOk "C"], loadW, engineW,
   "2024-01-01", serW⟩

/-- One-unit environment whose only factor permanently fails. -/
def envBad : ExplorerEnv Nat :=
  ⟨"0700.HK", ["1m"], [facBad "F"], loadW, engineW, "2024-01-01", serW⟩

/-- One-timeframe, one-good-factor environment. -/
def envOne : ExplorerEnv Nat :=
  ⟨"0700.HK", ["1m"], [facOk "A"], loadW, engineW, "2024-01-01", serW⟩

/-- A benign oracle for six pending units. -/
def oSix : PoolOracle := ⟨[0, 1, 2, 3, 4, 5], fun _ => false, none⟩

/-- A pool-creation-failure oracle. -/
def oCreateFail : PoolOracle := ⟨[0], fun _ => false, some 0⟩

/-- An environment with a duplicated timeframe, so two distinct grid
cells share the key `1m_A`. -/
def envDup : ExplorerEnv Nat :=
  ⟨"0700.HK", ["1m", "1m", "1m"], [facOk "A", facOk "B"], loadW, engineW,
   "2024-01-01", serW⟩

/-- A starting state whose cache already holds factor `A` of the `1m`
frame (key as `_make_key` builds it, signature as `compute_signature`
digests the one-row frame). -/
def stDup : ExpState :=
  { cache := { data := [(("0700.HK", "1m", "A", "#1m"), [("sharpe", "1")])],
               stats := {} } }

/-- A benign oracle for three pending units. -/
def oThree : PoolOracle := ⟨[0, 1, 2], fun _ => false, none⟩

/-- The oracle of a call with nothing pending. -/
def oEmpty : PoolOracle := ⟨[], fun _ => false, none⟩

/-- Oracle whose third task fails in its worker. -/
def oOneFail : PoolOracle := ⟨[0, 1, 2, 3, 4, 5], fun j => decide (j = 2), none⟩

/-- Creation-failure oracle for a six-unit grid. -/
def oCreateFail6 : PoolOracle := ⟨[0, 1, 2, 3, 4, 5], fun _ => false, some 0⟩

end ConcreteInstances

section DictLemmas

variable {K V : Type} [DecidableEq K]

theorem dictGet_dictSet_self (l : List (K × V)) (k : K) (v : V) :
    dictGet (dictSet l k v) k = some v := by
  induction l with
  | nil => simp [dictGet, dictSet]
  | cons p rest ih =>
      obtain ⟨k', v'⟩ := p
      by_cases h : k' = k <;> simp [dictSet, dictGet, h, ih]

theorem dictGet_dictSet_ne (l : List (K × V)) {k k' : K} (v : V) (h : k' ≠ k) :
    dictGet (dictSet l k v) k' = dictGet l k' := by
  have hne : ¬k = k' := fun hh => h hh.symm
  induction l with
  | nil =>
      simp only [dictSet, dictGet]
      rw [if_neg hne]
  | cons p rest ih =>
      obtain ⟨k0, v0⟩ := p
      by_cases h0 : k0 = k
      · subst h0
        simp only [dictSet, if_pos rfl, dictGet]
        rw [if_neg hne, if_neg hne]
      · simp only [dictSet, if_neg h0, dictGet]
        by_cases h1 : k0 = k'
        · rw [if_pos h1, if_pos h1]
        · rw [if_neg h1, if_neg h1, ih]

theorem keys_dictSet_of_mem {l : List (K × V)} {k : K} (v : V)
    (h : k ∈ l.map Prod.fst) :
    (dictSet l k v).map Prod.fst = l.map Prod.fst := by
  induction l with
  | nil => simp at h
  | cons p rest ih =>
      obtain ⟨k0, v0⟩ := p
      by_cases h0 : k0 = k
      · subst h0; simp [dictSet]
      · have hk : k ∈ rest.map Prod.fst := by
          rw [List.map_cons] at h
          rcases List.mem_cons.mp h with h1 | h1
          · exact absurd h1.symm h0
          · exact h1
        simp [dictSet, h0, ih hk]

theorem keys_dictSet_of_not_mem {l : List (K × V)} {k : K} (v : V)
    (h : k ∉ l.map Prod.fst) :
    (dictSet l k v).map Prod.fst = l.map Prod.fst ++ [k] := by
  induction l with
  | nil => simp [dictSet]
  | cons p rest ih =>
      obtain ⟨k0, v0⟩ := p
      have h1 : ¬k0 = k := by
        intro hh; exact h (by simp [hh])
      have h2 : k ∉ rest.map Prod.fst := by
        intro hh; exact h (by simp [hh])
      simp [dictSet, h1, ih h2]

theorem dictGet_eq_none_iff (l : List (K × V)) (k : K) :
    dictGet l k = none ↔ k ∉ l.map Prod.fst := by
  induction l with
  | nil => simp [dictGet]
  | cons p rest ih =>
      obtain ⟨k0, v0⟩ := p
      by_cases h0 : k0 = k
      · subst h0
        constructor
        · intro hcontra; simp [dictGet] at hcontra
        · intro hmem; exact absurd (by simp) hmem
      · constructor
        · intro hn hmem
          simp only [dictGet, if_neg h0] at hn
          rw [List.map_cons] at hmem
          rcases List.mem_cons.mp hmem with h1 | h1
          · exact h0 h1.symm
          · exact (ih.mp hn) h1
        · intro hmem
          simp only [dictGet, if_neg h0]
          exact ih.mpr fun h1 => hmem (by simp [h1])

theorem dictGet_isSome_iff (l : List (K × V)) (k : K) :
    (dictGet l k).isSome = true ↔ k ∈ l.map Prod.fst := by
  rcases h : dictGet l k with _ | v
  · simp [(dictGet_eq_none_iff l k).mp h]
  · have : ¬dictGet l k = none := by simp [h]
    rw [dictGet_eq_none_iff] at this
    simpa using this

theorem dictGet_dictSets_of_not_mem (l : List (K × V)) (kvs : List (K × V))
    {k : K} (h : k ∉ kvs.map Prod.fst) :
    dictGet (dictSets l kvs) k = dictGet l k := by
  induction kvs generalizing l with
  | nil => rfl
  | cons p rest ih =>
      simp only [List.map_cons, List.mem_cons] at h
      push_neg at h
      rw [dictSets, List.foldl_cons]
      have := ih (dictSet l p.1 p.2) h.2
      rw [dictSets] at this
      rw [this, dictGet_dictSet_ne _ _ h.1]

theorem dictGet_dictSets_of_mem (l : List (K × V)) (kvs : List (K × V))
    {k : K} {v : V} (hnd : (kvs.map Prod.fst).Nodup) (hmem : (k, v) ∈ kvs) :
    dictGet (dictSets l kvs) k = some v := by
  induction kvs generalizing l with
  | nil => simp at hmem
  | cons p rest ih =>
      simp only [List.map_cons, List.nodup_cons] at hnd
      rw [dictSets, List.foldl_cons]
      rcases List.mem_cons.mp hmem with h | h
      · subst h
        have hnot : k ∉ rest.map Prod.fst := by simpa using hnd.1
        have := dictGet_dictSets_of_not_mem (dictSet l k v) rest hnot
        rw [dictSets] at this
        rw [this, dictGet_dictSet_self]
      · exact ih (dictSet l p.1 p.2) hnd.2 h

theorem keys_dictSets_of_fresh (l : List (K × V)) (kvs : List (K × V))
    (hfresh : ∀ k ∈ kvs.map Prod.fst, k ∉ l.map Prod.fst)
    (hnd : (kvs.map Prod.fst).Nodup) :
    (dictSets l kvs).map Prod.fst = l.map Prod.fst ++ kvs.map Prod.fst := by
  induction kvs generalizing l with
  | nil => simp [dictSets]
  | cons p rest ih =>
      simp only [List.map_cons, List.nodup_cons] at hnd
      rw [dictSets, List.foldl_cons]
      have hstep : (dictSet l p.1 p.2).map Prod.fst = l.map Prod.fst ++ [p.1] :=
        keys_dictSet_of_not_mem _ (hfresh p.1 (by simp))
      have hres := ih (dictSet l p.1 p.2)
        (by
          intro k hk
          rw [hstep]
          simp only [List.mem_append, List.mem_singleton]
          push_neg
          refine ⟨hfresh k (by simp [hk]), ?_⟩
          intro hkp
          exact hnd.1 (hkp ▸ hk))
        hnd.2
      rw [dictSets] at hres
      rw [hres, hstep, List.append_assoc]
      rfl

theorem nodup_keys_dictSet {l : List (K × V)} (k : K) (v : V)
    (h : (l.map Prod.fst).Nodup) : ((dictSet l k v).map Prod.fst).Nodup := by
  by_cases hm : k ∈ l.map Prod.fst
  · rw [keys_dictSet_of_mem v hm]; exact h
  · rw [keys_dictSet_of_not_mem v hm, List.nodup_append]
    refine ⟨h, List.nodup_singleton k, ?_⟩
    intro a ha hak
    rw [List.mem_singleton] at hak
    exact hm (hak ▸ ha)

end DictLemmas

section CacheLemmas

/-- `get` never changes the stored contents. -/
theorem FactorCache.get_data (c : FactorCache) (s tf fn : String)
    (sig : Option String) : ((c.get s tf fn sig).2).data = c.data := by
  rcases sig with _ | sv
  · rfl
  · simp only [FactorCache.get, FactorCache.make_key]
    rcases dictGet c.data (s, tf, fn, sv) with _ | p <;> rfl

/-- The value returned by `get` is exactly the guarded map lookup. -/
theorem FactorCache.get_fst (c : FactorCache) (s tf fn : String)
    (sig : Option String) :
    (c.get s tf fn sig).1 =
      match FactorCache.make_key s tf fn sig with
      | none => none
      | some k => dictGet c.data k := by
  rcases sig with _ | sv
  · rfl
  · simp only [FactorCache.get, FactorCache.make_key]
    rcases dictGet c.data (s, tf, fn, sv) with _ | p <;> rfl

/-- Every `get` advances exactly one of the two counters by one. -/
theorem FactorCache.get_stats (c : FactorCache) (s tf fn : String)
    (sig : Option String) :
    (((c.get s tf fn sig).2).stats.hits = c.stats.hits + 1 ∧
       ((c.get s tf fn sig).2).stats.misses = c.stats.misses ∧
       ((c.get s tf fn sig).1).isSome = true) ∨
    (((c.get s tf fn sig).2).stats.hits = c.stats.hits ∧
       ((c.get s tf fn sig).2).stats.misses = c.stats.misses + 1 ∧
       (c.get s tf fn sig).1 = none) := by
  rcases sig with _ | sv
  · right; exact ⟨rfl, rfl, rfl⟩
  · simp only [FactorCache.get, FactorCache.make_key]
    rcases dictGet c.data (s, tf, fn, sv) with _ | p
    · right; exact ⟨rfl, rfl, rfl⟩
    · left; exact ⟨rfl, rfl, rfl⟩

/-- `get` never changes the stores counter. -/
theorem FactorCache.get_stores (c : FactorCache) (s tf fn : String)
    (sig : Option String) :
    ((c.get s tf fn sig).2).stats.stores = c.stats.stores := by
  rcases sig with _ | sv
  · rfl
  · simp only [FactorCache.get, FactorCache.make_key]
    rcases dictGet c.data (s, tf, fn, sv) with _ | p <;> rfl

/-- `set` with a present fingerprint stores the entry and counts it. -/
theorem FactorCache.set_some (c : FactorCache) (s tf fn sv : String)
    (r : Payload) :
    c.set s tf fn (some sv) r =
      { c with data := dictSet c.data (s, tf, fn, sv) r,
               stats := { c.stats with stores := c.stats.stores + 1 } } := rfl

/-- `set` with an absent fingerprint is a no-op. -/
theorem FactorCache.set_none (c : FactorCache) (s tf fn : String)
    (r : Payload) : c.set s tf fn none r = c := rfl

end CacheLemmas

section SignatureLemmas

/-- `compute_signature` returns `none` exactly on an absent dataset. -/
theorem compute_signature_eq_none_iff (ser : SerEnv) (d : PyVal) :
    FactorCache.compute_signature ser d = none ↔ d = PyVal.pynone := by
  cases d with
  | pynone => simp [FactorCache.compute_signature]
  | frame rows => simp [FactorCache.compute_signature]
  | obj r p => cases p <;> simp [FactorCache.compute_signature]

/-- The tabular branch hashes the serialization of the trailing sample,
which has at most 200 rows (exactly `min (length) 200`). -/
theorem compute_signature_frame_sample (ser : SerEnv) (rows : List String) :
    ∃ sample : List String,
      sample = rows.drop (rows.length - min rows.length 200) ∧
      sample.length = min rows.length 200 ∧
      sample.length ≤ 200 ∧
      FactorCache.compute_signature ser (PyVal.frame rows) =
        some (ser.sha1 (ser.toJson sample)) := by
  refine ⟨rows.drop (rows.length - min rows.length 200), rfl, ?_, ?_, rfl⟩
  · rw [List.length_drop]
    omega
  · rw [List.length_drop]
    omega

end SignatureLemmas

section StateLemmas

/-- `_log_progress` never touches the cache. -/
@[simp] theorem _log_progress_cache (st : ExpState) (c t : Nat) :
    (_log_progress st c t).cache = st.cache := by
  unfold _log_progress
  split
  · rfl
  · split <;> rfl

/-- `_log_progress` never touches the sticky pool flag. -/
@[simp] theorem _log_progress_flag (st : ExpState) (c t : Nat) :
    (_log_progress st c t).process_pool_supported = st.process_pool_supported := by
  unfold _log_progress
  split
  · rfl
  · split <;> rfl

/-- `_log_progress` never logs a pool-degradation warning. -/
@[simp] theorem _log_progress_warn (st : ExpState) (c t : Nat) :
    (_log_progress st c t).pool_warnings = st.pool_warnings := by
  unfold _log_progress
  split
  · rfl
  · split <;> rfl

/-- `get` on a cell whose spec lookup misses. -/
theorem FactorCache.get_eq_of_cachedVal_none {Sig : Type} (env : ExplorerEnv Sig)
    (c : FactorCache) (tf : String) (sig : Option String) (f : FactorCalculator Sig)
    (h : cachedVal env c.data tf sig f = none) :
    c.get env.symbol tf f.name sig =
      (none, { c with stats := { c.stats with misses := c.stats.misses + 1 } }) := by
  unfold cachedVal at h
  rcases sig with _ | sv
  · rfl
  · simp only [FactorCache.make_key] at h
    unfold FactorCache.get
    simp only [FactorCache.make_key, h]

/-- `get` on a cell whose spec lookup hits. -/
theorem FactorCache.get_eq_of_cachedVal_some {Sig : Type} (env : ExplorerEnv Sig)
    (c : FactorCache) (tf : String) (sig : Option String) (f : FactorCalculator Sig)
    {p : Payload} (h : cachedVal env c.data tf sig f = some p) :
    c.get env.symbol tf f.name sig =
      (some p, { c with stats := { c.stats with hits := c.stats.hits + 1 } }) := by
  unfold cachedVal at h
  rcases sig with _ | sv
  · exact Option.noConfusion h
  · simp only [FactorCache.make_key] at h
    unfold FactorCache.get
    simp only [FactorCache.make_key, h]

end StateLemmas

section BuildLemmas

variable {Sig : Type}

theorem buildFactorLoop_spec (env : ExplorerEnv Sig) (total : Nat)
    (tf : String) (data : PyVal) (sig : Option String) :
    ∀ (fs : List (FactorCalculator Sig)) (acc : BuildAcc Sig),
    (buildFactorLoop env total tf data sig fs acc).dataset = acc.dataset ∧
    (buildFactorLoop env total tf data sig fs acc).st.cache.data = acc.st.cache.data ∧
    (buildFactorLoop env total tf data sig fs acc).st.cache.stats.hits =
      acc.st.cache.stats.hits + (hitsOf env acc.st.cache.data tf sig fs).length ∧
    (buildFactorLoop env total tf data sig fs acc).st.cache.stats.misses =
      acc.st.cache.stats.misses + (missesOf env acc.st.cache.data tf sig fs).length ∧
    (buildFactorLoop env total tf data sig fs acc).st.cache.stats.stores =
      acc.st.cache.stats.stores ∧
    (buildFactorLoop env total tf data sig fs acc).st.process_pool_supported =
      acc.st.process_pool_supported ∧
    (buildFactorLoop env total tf data sig fs acc).st.pool_warnings =
      acc.st.pool_warnings ∧
    (buildFactorLoop env total tf data sig fs acc).tasks =
      acc.tasks ++ (missesOf env acc.st.cache.data tf sig fs).map
        (fun f => ⟨tf, f, data, sig⟩) ∧
    (buildFactorLoop env total tf data sig fs acc).completed =
      acc.completed + (hitsOf env acc.st.cache.data tf sig fs).length ∧
    (buildFactorLoop env total tf data sig fs acc).results =
      dictSets acc.results (hitPairs env acc.st.cache.data tf sig fs) := by
  intro fs
  induction fs with
  | nil =>
      intro acc
      simp [buildFactorLoop, hitsOf, missesOf, hitPairs, dictSets, List.filter]
  | cons f rest ih =>
      intro acc
      rcases hget : acc.st.cache.get env.symbol tf f.name sig with ⟨cached, cache2⟩
      have hfst : cachedVal env acc.st.cache.data tf sig f = cached := by
        have hh := FactorCache.get_fst acc.st.cache env.symbol tf f.name sig
        rw [hget] at hh
        unfold cachedVal
        exact hh.symm
      have hdata : cache2.data = acc.st.cache.data := by
        have hh := FactorCache.get_data acc.st.cache env.symbol tf f.name sig
        rw [hget] at hh
        exact hh
      have hstores : cache2.stats.stores = acc.st.cache.stats.stores := by
        have hh := FactorCache.get_stores acc.st.cache env.symbol tf f.name sig
        rw [hget] at hh
        exact hh
      have hstats := FactorCache.get_stats acc.st.cache env.symbol tf f.name sig
      rw [hget] at hstats
      simp only [buildFactorLoop, hget]
      rcases cached with _ | p
      · -- cache miss: the factor becomes a pending task
        rcases hstats with ⟨_, _, habs⟩ | ⟨hh, hm, _⟩
        · simp at habs
        have hmiss : missesOf env acc.st.cache.data tf sig (f :: rest) =
            f :: missesOf env acc.st.cache.data tf sig rest := by
          simp [missesOf, List.filter, hfst]
        have hhit : hitsOf env acc.st.cache.data tf sig (f :: rest) =
            hitsOf env acc.st.cache.data tf sig rest := by
          simp [hitsOf, List.filter, hfst]
        have hhp : hitPairs env acc.st.cache.data tf sig (f :: rest) =
            hitPairs env acc.st.cache.data tf sig rest := by
          simp [hitPairs, hhit]
        obtain ⟨i1, i2, i3, i4, i5, i6, i7, i8, i9, i10⟩ := ih
          ⟨acc.tasks ++ [⟨tf, f, data, sig⟩], acc.dataset, acc.results,
           acc.completed, { acc.st with cache := cache2 }⟩
        dsimp only at i1 i2 i3 i4 i5 i6 i7 i8 i9 i10
        rw [hdata] at i2 i3 i4 i8 i9 i10
        rw [hh] at i3
        rw [hm] at i4
        rw [hstores] at i5
        refine ⟨i1, i2, ?_, ?_, i5, i6, i7, ?_, ?_, ?_⟩
        · rw [i3, hhit]
        · rw [i4, hmiss]
          simp only [List.length_cons]
          omega
        · rw [i8, hmiss]
          simp [List.append_assoc]
        · rw [i9, hhit]
        · rw [i10, hhp]
      · -- cache hit: the payload goes straight into the result map
        rcases hstats with ⟨hh, hm, _⟩ | ⟨_, _, habs⟩
        swap
        · simp at habs
        have hhit : hitsOf env acc.st.cache.data tf sig (f :: rest) =
            f :: hitsOf env acc.st.cache.data tf sig rest := by
          simp [hitsOf, List.filter, hfst]
        have hmiss : missesOf env acc.st.cache.data tf sig (f :: rest) =
            missesOf env acc.st.cache.data tf sig rest := by
          simp [missesOf, List.filter, hfst]
        have hhp : hitPairs env acc.st.cache.data tf sig (f :: rest) =
            (tf ++ "_" ++ f.name, p) :: hitPairs env acc.st.cache.data tf sig rest := by
          simp [hitPairs, hhit, hfst]
        obtain ⟨i1, i2, i3, i4, i5, i6, i7, i8, i9, i10⟩ := ih
          ⟨acc.tasks, acc.dataset, dictSet acc.results (tf ++ "_" ++ f.name) p,
           acc.completed + 1,
           _log_progress { acc.st with cache := cache2 } (acc.completed + 1) total⟩
        dsimp only at i1 i2 i3 i4 i5 i6 i7 i8 i9 i10
        rw [_log_progress_cache] at i2 i3 i4 i5 i8 i9 i10
        rw [_log_progress_flag] at i6
        rw [_log_progress_warn] at i7
        dsimp only at i2 i3 i4 i5 i6 i7 i8 i9 i10
        rw [hdata] at i2 i3 i4 i8 i9 i10
        rw [hh] at i3
        rw [hm] at i4
        rw [hstores] at i5
        refine ⟨i1, i2, ?_, ?_, i5, i6, i7, ?_, ?_, ?_⟩
        · rw [i3, hhit]
          simp only [List.length_cons]
          omega
        · rw [i4, hmiss]
        · rw [i8, hmiss]
        · rw [i9, hhit]
          simp only [List.length_cons]
          omega
        · rw [i10, hhp]
          rfl

end BuildLemmas

theorem dictSets_append {K V : Type} [DecidableEq K] (l : List (K × V))
    (a b : List (K × V)) : dictSets l (a ++ b) = dictSets (dictSets l a) b := by
  unfold dictSets
  exact List.foldl_append _ _ a b

section OuterBuildLemmas

variable {Sig : Type}

theorem buildTimeframeLoop_spec (env : ExplorerEnv Sig) (total : Nat)
    (D : String → PyVal) :
    ∀ (tfs : List String) (acc : BuildAcc Sig),
    (∀ tf ∈ tfs, env.load env.symbol tf = .ok (D tf)) →
    ∃ B, buildTimeframeLoop env total tfs acc = .ok B ∧
      B.st.cache.data = acc.st.cache.data ∧
      B.st.cache.stats.hits =
        acc.st.cache.stats.hits + (gridHitPairs env acc.st.cache.data D tfs).length ∧
      B.st.cache.stats.misses =
        acc.st.cache.stats.misses +
          (gridMisses env acc.st.cache.data D tfs).length ∧
      B.st.cache.stats.stores = acc.st.cache.stats.stores ∧
      B.st.process_pool_supported = acc.st.process_pool_supported ∧
      B.st.pool_warnings = acc.st.pool_warnings ∧
      B.tasks = acc.tasks ++ gridMisses env acc.st.cache.data D tfs ∧
      B.completed = acc.completed + (gridHitPairs env acc.st.cache.data D tfs).length ∧
      B.results = dictSets acc.results (gridHitPairs env acc.st.cache.data D tfs) ∧
      (∀ tf ∈ tfs, dictGet B.dataset tf = some (D tf)) ∧
      (∀ tf, tf ∉ tfs → dictGet B.dataset tf = dictGet acc.dataset tf) := by
  intro tfs
  induction tfs with
  | nil =>
      intro acc _
      refine ⟨acc, rfl, rfl, ?_, ?_, rfl, rfl, rfl, ?_, ?_, ?_, ?_, ?_⟩ <;>
        simp [gridHitPairs, gridMisses, dictSets]
  | cons tf rest ih =>
      intro acc hload
      have hl : env.load env.symbol tf = .ok (D tf) := hload tf (by simp)
      obtain ⟨b1, b2, b3, b4, b5, b6, b7, b8, b9, b10⟩ :=
        buildFactorLoop_spec env total tf (D tf)
          (FactorCache.compute_signature env.ser (D tf)) env.factors
          { acc with dataset := dictSet acc.dataset tf (D tf) }
      obtain ⟨B, hB, j1, j2, j3, j4, j5, j6, j7, j8, j9, j10, j11⟩ :=
        ih (buildFactorLoop env total tf (D tf)
              (FactorCache.compute_signature env.ser (D tf)) env.factors
              { acc with dataset := dictSet acc.dataset tf (D tf) })
           (fun tf' h' => hload tf' (by simp [h']))
      dsimp only at b1 b2 b3 b4 b5 b6 b7 b8 b9 b10
      rw [b2] at j1 j2 j3 j7 j8 j9
      have hgm : gridMisses env acc.st.cache.data D (tf :: rest) =
          (missesOf env acc.st.cache.data tf
              (FactorCache.compute_signature env.ser (D tf)) env.factors).map
            (fun f => ⟨tf, f, D tf, FactorCache.compute_signature env.ser (D tf)⟩) ++
          gridMisses env acc.st.cache.data D rest := by
        simp [gridMisses]
      have hgh : gridHitPairs env acc.st.cache.data D (tf :: rest) =
          hitPairs env acc.st.cache.data tf
              (FactorCache.compute_signature env.ser (D tf)) env.factors ++
          gridHitPairs env acc.st.cache.data D rest := by
        simp [gridHitPairs]
      have hlenh : (hitPairs env acc.st.cache.data tf
          (FactorCache.compute_signature env.ser (D tf)) env.factors).length =
          (hitsOf env acc.st.cache.data tf
            (FactorCache.compute_signature env.ser (D tf)) env.factors).length := by
        simp [hitPairs]
      refine ⟨B, ?_, ?_, ?_, ?_, ?_, ?_, ?_, ?_, ?_, ?_, ?_, ?_⟩
      · simp only [buildTimeframeLoop, hl]
        exact hB
      · exact j1
      · rw [j2, b3, hgh]
        simp only [List.length_append, hlenh]
        omega
      · rw [j3, b4, hgm]
        simp only [List.length_append, List.length_map]
        omega
      · rw [j4, b5]
      · rw [j5, b6]
      · rw [j6, b7]
      · rw [j7, b8, hgm, List.append_assoc]
      · rw [j8, b9, hgh]
        simp only [List.length_append, hlenh]
        omega
      · rw [j9, b10, hgh, dictSets_append]
      · intro tf' htf'
        rcases List.mem_cons.mp htf' with h' | h'
        · subst h'
          by_cases hmem : tf' ∈ rest
          · exact j10 tf' hmem
          · rw [j11 tf' hmem, b1]
            exact dictGet_dictSet_self acc.dataset tf' (D tf')
        · exact j10 tf' h'
      · intro tf' htf'
        have h1 : tf' ≠ tf := fun hh => htf' (by simp [hh])
        have h2 : tf' ∉ rest := fun hh => htf' (by simp [hh])
        rw [j11 tf' h2, b1]
        exact dictGet_dictSet_ne acc.dataset (D tf) h1

end OuterBuildLemmas

section DispatchLemmas

variable {Sig : Type}

/-- A worker computes exactly what the orchestrating process would
compute locally for the same unit (same factory, signals, engine and
formatting). -/
theorem _worker_task_eq_local (env : ExplorerEnv Sig) (tf : String)
    (f : FactorCalculator Sig) (d : PyVal) :
    _worker_task env tf f d =
      (_compute_locally env tf f d).map fun p => (tf ++ "_" ++ f.name, p) := by
  unfold _worker_task _compute_locally
  cases hg : f.generate_signals env.symbol tf d with
  | error m => simp [bind, Except.bind, Except.map]
  | ok s =>
      cases hb : env.engine_factory env.symbol d s with
      | error m => simp [bind, Except.bind, hb, Except.map]
      | ok b => simp [bind, Except.bind, hb, Except.map, pure, Except.pure]

theorem _worker_snd (env : ExplorerEnv Sig) (tf : String)
    (f : FactorCalculator Sig) (d : PyVal) {p : Payload}
    (h : _compute_locally env tf f d = .ok p) :
    (_worker_task env tf f d).map Prod.snd = .ok p := by
  rw [_worker_task_eq_local, h]
  rfl

theorem localValD_eq {env : ExplorerEnv Sig} {t : WorkTask Sig} {p : Payload}
    (h : localResult env t = .ok p) : localValD env t = p := by
  simp [localValD, h, Except.toOption]

/-- The sequential executor touches neither the sticky flag, nor the
warning count, nor the hit and miss counters. -/
theorem seqLoop_frame (env : ExplorerEnv Sig) (dataset : List (String × PyVal))
    (total : Nat) :
    ∀ (tasks : List (WorkTask Sig)) (results : List (String × Payload))
      (completed : Nat) (st : ExpState),
    (seqLoop env dataset total tasks results completed st).2.process_pool_supported =
      st.process_pool_supported ∧
    (seqLoop env dataset total tasks results completed st).2.pool_warnings =
      st.pool_warnings ∧
    (seqLoop env dataset total tasks results completed st).2.cache.stats.hits =
      st.cache.stats.hits ∧
    (seqLoop env dataset total tasks results completed st).2.cache.stats.misses =
      st.cache.stats.misses := by
  intro tasks
  induction tasks with
  | nil => intro results completed st; exact ⟨rfl, rfl, rfl, rfl⟩
  | cons t rest ih =>
      intro results completed st
      rcases hd : dictGet dataset t.timeframe with _ | d
      · simp only [seqLoop, hd]
        exact ih results completed st
      · rcases hc : _compute_locally env t.timeframe t.factor d with m | q
        · simp only [seqLoop, hd, hc]
          exact ih results completed st
        · simp only [seqLoop, hd, hc]
          by_cases hsig : t.signature.isSome
          · obtain ⟨sv, hsv⟩ := Option.isSome_iff_exists.mp hsig
            rw [if_pos hsig]
            obtain ⟨f1, f2, f3, f4⟩ := ih
              (dictSet results (t.timeframe ++ "_" ++ t.factor.name) q)
              (completed + 1)
              (_log_progress { st with cache := (st.cache.set env.symbol t.timeframe
                  t.factor.name t.signature q) } (completed + 1) total)
            refine ⟨?_, ?_, ?_, ?_⟩
            · rw [f1, _log_progress_flag]
            · rw [f2, _log_progress_warn]
            · rw [f3, _log_progress_cache, hsv, FactorCache.set_some]
            · rw [f4, _log_progress_cache, hsv, FactorCache.set_some]
          · rw [if_neg hsig]
            obtain ⟨f1, f2, f3, f4⟩ := ih
              (dictSet results (t.timeframe ++ "_" ++ t.factor.name) q)
              (completed + 1) (_log_progress st (completed + 1) total)
            refine ⟨?_, ?_, ?_, ?_⟩
            · rw [f1, _log_progress_flag]
            · rw [f2, _log_progress_warn]
            · rw [f3, _log_progress_cache]
            · rw [f4, _log_progress_cache]

/-- What the sequential executor produces when every task has its
dataset on hand and every computation succeeds: every unit is merged
and write-through happens exactly once per fingerprinted unit. -/
theorem seqLoop_spec (env : ExplorerEnv Sig) (dataset : List (String × PyVal))
    (total : Nat) :
    ∀ (tasks : List (WorkTask Sig)) (results : List (String × Payload))
      (completed : Nat) (st : ExpState),
    (∀ t ∈ tasks, dictGet dataset t.timeframe = some t.data) →
    (∀ t ∈ tasks, ∃ p, localResult env t = .ok p) →
    (seqLoop env dataset total tasks results completed st).1 =
      dictSets results (tasks.map fun t => (t.key, localValD env t)) ∧
    (seqLoop env dataset total tasks results completed st).2.cache.data =
      dictSets st.cache.data (cacheWrites env tasks) ∧
    (seqLoop env dataset total tasks results completed st).2.cache.stats.stores =
      st.cache.stats.stores + (tasks.filter fun t => t.signature.isSome).length := by
  intro tasks
  induction tasks with
  | nil =>
      intro results completed st _ _
      exact ⟨rfl, rfl, rfl⟩
  | cons t rest ih =>
      intro results completed st hds hcomp
      obtain ⟨p, hp⟩ := hcomp t (by simp)
      have hvd : localValD env t = p := localValD_eq hp
      have hp' : _compute_locally env t.timeframe t.factor t.data = .ok p := hp
      simp only [seqLoop, hds t (by simp), hp']
      have hkey : t.timeframe ++ "_" ++ t.factor.name = t.key := rfl
      by_cases hsig : t.signature.isSome
      · obtain ⟨sv, hsv⟩ := Option.isSome_iff_exists.mp hsig
        obtain ⟨f1, f2, f3⟩ := ih
          (dictSet results (t.timeframe ++ "_" ++ t.factor.name) p)
          (completed + 1)
          (_log_progress { st with cache := (st.cache.set env.symbol t.timeframe
              t.factor.name t.signature p) } (completed + 1) total)
          (fun t2 ht2 => hds t2 (by simp [ht2])) (fun t2 ht2 => hcomp t2 (by simp [ht2]))
        rw [if_pos hsig]
        have hcw : cacheWrites env (t :: rest) =
            ((env.symbol, t.timeframe, t.factor.name, sv), p) :: cacheWrites env rest := by
          unfold cacheWrites
          rw [List.filter_cons, if_pos hsig]
          simp [hsv, hvd]
        refine ⟨?_, ?_, ?_⟩
        · rw [f1, hkey, List.map_cons, hvd]
          rfl
        · rw [f2, _log_progress_cache, hsv, FactorCache.set_some, hcw]
          rfl
        · rw [f3, _log_progress_cache, hsv, FactorCache.set_some]
          rw [List.filter_cons, if_pos hsig]
          simp only [List.length_cons]
          omega
      · obtain ⟨f1, f2, f3⟩ := ih
          (dictSet results (t.timeframe ++ "_" ++ t.factor.name) p)
          (completed + 1) (_log_progress st (completed + 1) total)
          (fun t2 ht2 => hds t2 (by simp [ht2])) (fun t2 ht2 => hcomp t2 (by simp [ht2]))
        rw [if_neg hsig]
        have hcw : cacheWrites env (t :: rest) = cacheWrites env rest := by
          unfold cacheWrites
          rw [List.filter_cons, if_neg hsig]
        refine ⟨?_, ?_, ?_⟩
        · rw [f1, hkey, List.map_cons, hvd]
          rfl
        · rw [f2, _log_progress_cache, hcw]
        · rw [f3, _log_progress_cache]
          rw [List.filter_cons, if_neg hsig]

theorem FactorCache.set_hits (c : FactorCache) (s tf fn : String)
    (sig : Option String) (r : Payload) :
    (c.set s tf fn sig r).stats.hits = c.stats.hits := by
  cases sig <;> rfl

theorem FactorCache.set_misses (c : FactorCache) (s tf fn : String)
    (sig : Option String) (r : Payload) :
    (c.set s tf fn sig r).stats.misses = c.stats.misses := by
  cases sig <;> rfl

/-- The pool dispatch block touches neither the sticky flag, nor the
warning count, nor the hit and miss counters, whatever its outcome. -/
theorem poolLoop_frame (env : ExplorerEnv Sig) (tasks : List (WorkTask Sig))
    (dataset : List (String × PyVal)) (total : Nat) (O : PoolOracle) :
    ∀ (order : List Nat) (processed : Nat) (results : List (String × Payload))
      (completed : Nat) (st : ExpState),
    (poolLoop env tasks dataset total O order processed results completed
        st).state.process_pool_supported = st.process_pool_supported ∧
    (poolLoop env tasks dataset total O order processed results completed
        st).state.pool_warnings = st.pool_warnings ∧
    (poolLoop env tasks dataset total O order processed results completed
        st).state.cache.stats.hits = st.cache.stats.hits ∧
    (poolLoop env tasks dataset total O order processed results completed
        st).state.cache.stats.misses = st.cache.stats.misses := by
  intro order
  induction order with
  | nil =>
      intro processed results completed st
      simp only [poolLoop]
      split
      · exact ⟨rfl, rfl, rfl, rfl⟩
      · exact ⟨rfl, rfl, rfl, rfl⟩
  | cons i rest ih =>
      intro processed results completed st
      simp only [poolLoop]
      split
      · exact ⟨rfl, rfl, rfl, rfl⟩
      · split
        · exact ⟨rfl, rfl, rfl, rfl⟩
        · split
          · exact ⟨rfl, rfl, rfl, rfl⟩
          · split
            · refine ⟨?_, ?_, ?_, ?_⟩
              · rw [(ih _ _ _ _).1, _log_progress_flag]
              · rw [(ih _ _ _ _).2.1, _log_progress_warn]
              · rw [(ih _ _ _ _).2.2.1, _log_progress_cache]
                exact FactorCache.set_hits _ _ _ _ _ _
              · rw [(ih _ _ _ _).2.2.2, _log_progress_cache]
                exact FactorCache.set_misses _ _ _ _ _ _
            · refine ⟨?_, ?_, ?_, ?_⟩
              · rw [(ih _ _ _ _).1, _log_progress_flag]
              · rw [(ih _ _ _ _).2.1, _log_progress_warn]
              · rw [(ih _ _ _ _).2.2.1, _log_progress_cache]
              · rw [(ih _ _ _ _).2.2.2, _log_progress_cache]

/-- With `poolFail = none` the dispatch block can never report a
startup failure. -/
theorem poolLoop_none_not_startupFail (env : ExplorerEnv Sig)
    (tasks : List (WorkTask Sig)) (dataset : List (String × PyVal))
    (total : Nat) (O : PoolOracle) (hpf : O.poolFail = none) :
    ∀ (order : List Nat) (processed : Nat) (results : List (String × Payload))
      (completed : Nat) (st : ExpState)
      (res : List (String × Payload)) (comp : Nat) (st2 : ExpState),
    poolLoop env tasks dataset total O order processed results completed st ≠
      .startupFail res comp st2 := by
  intro order
  induction order with
  | nil =>
      intro processed results completed st res comp st2
      simp only [poolLoop, hpf]
      intro h
      exact PoolOutcome.noConfusion h
  | cons i rest ih =>
      intro processed results completed st res comp st2
      simp only [poolLoop, hpf]
      rw [if_neg (fun hc => Option.noConfusion hc)]
      split
      · intro h
        exact PoolOutcome.noConfusion h
      · split
        · intro h
          exact PoolOutcome.noConfusion h
        · exact ih _ _ _ _ _ _ _

/-- The dispatch loop when the pool never fails at startup level: every
scheduled unit resolves to its local value (workers and the local
fallback compute the same thing), is merged and is written through once
when fingerprinted. -/
theorem poolLoop_spec (env : ExplorerEnv Sig) (tasks : List (WorkTask Sig))
    (dataset : List (String × PyVal)) (total : Nat) (O : PoolOracle) :
    ∀ (order : List Nat) (processed : Nat) (results : List (String × Payload))
      (completed : Nat) (st : ExpState),
    (∀ i ∈ order, ∃ t, tasks[i]? = some t) →
    (∀ t ∈ tasks, dictGet dataset t.timeframe = some t.data) →
    (∀ t ∈ tasks, ∃ p, localResult env t = .ok p) →
    (∀ j, O.poolFail = some j → j < processed ∨ processed + order.length < j) →
    ∃ st2, poolLoop env tasks dataset total O order processed results completed st =
        .done (dictSets results ((tasksAt tasks order).map fun t => (t.key, localValD env t)))
          (completed + order.length) st2 ∧
      st2.cache.data = dictSets st.cache.data (cacheWrites env (tasksAt tasks order)) ∧
      st2.cache.stats.stores = st.cache.stats.stores +
        ((tasksAt tasks order).filter fun t => t.signature.isSome).length ∧
      st2.cache.stats.hits = st.cache.stats.hits ∧
      st2.cache.stats.misses = st.cache.stats.misses ∧
      st2.process_pool_supported = st.process_pool_supported ∧
      st2.pool_warnings = st.pool_warnings := by
  intro order
  induction order with
  | nil =>
      intro processed results completed st _ _ _ hnotrig
      have hnp : ¬O.poolFail = some processed := by
        intro hc
        rcases hnotrig processed hc with h | h
        · omega
        · simp at h
      refine ⟨st, ?_, rfl, ?_, rfl, rfl, rfl, rfl⟩
      · simp only [poolLoop]
        rw [if_neg hnp]
        rfl
      · simp [tasksAt]
  | cons i rest ih =>
      intro processed results completed st hvalid hds hcomp hnotrig
      obtain ⟨t, ht⟩ := hvalid i (by simp)
      have htmem : t ∈ tasks := List.getElem?_mem ht
      obtain ⟨p, hp⟩ := hcomp t htmem
      have hp' : _compute_locally env t.timeframe t.factor t.data = .ok p := hp
      have hvd : localValD env t = p := localValD_eq hp
      have hnp : ¬O.poolFail = some processed := by
        intro hc
        rcases hnotrig processed hc with h | h
        · omega
        · rw [List.length_cons] at h
          omega
      have hnotrig2 : ∀ j, O.poolFail = some j →
          j < processed + 1 ∨ (processed + 1) + rest.length < j := by
        intro j hj
        rcases hnotrig j hj with h | h
        · omega
        · rw [List.length_cons] at h
          omega
      have hvalid2 : ∀ i2 ∈ rest, ∃ t2, tasks[i2]? = some t2 := by
        intro i2 hi2
        exact hvalid i2 (by simp [hi2])
      have htA : tasksAt tasks (i :: rest) = t :: tasksAt tasks rest := by
        simp [tasksAt, ht]
      have hlen : completed + (i :: rest).length = (completed + 1) + rest.length := by
        rw [List.length_cons]
        omega
      obtain ⟨st2, e1, e2, e3, e4, e5, e6, e7⟩ :=
        ih (processed + 1)
          (dictSet results (t.timeframe ++ "_" ++ t.factor.name) p)
          (completed + 1)
          (_log_progress
            (if t.signature.isSome then
              { st with cache := (st.cache.set env.symbol t.timeframe
                  t.factor.name t.signature p) }
             else st)
            (completed + 1) total)
          hvalid2 hds hcomp hnotrig2
      have hstep : poolLoop env tasks dataset total O (i :: rest) processed
          results completed st =
          poolLoop env tasks dataset total O rest (processed + 1)
            (dictSet results (t.timeframe ++ "_" ++ t.factor.name) p)
            (completed + 1)
            (_log_progress
              (if t.signature.isSome then
                { st with cache := (st.cache.set env.symbol t.timeframe
                    t.factor.name t.signature p) }
               else st)
              (completed + 1) total) := by
        conv =>
          lhs
          simp only [poolLoop]
        rw [if_neg hnp]
        simp only [ht]
        by_cases htf : O.taskFail i
        · rw [if_pos htf]
          simp only [hds t htmem, hp']
        · rw [if_neg htf]
          rw [_worker_snd env _ _ _ hp']
      rw [_log_progress_cache] at e2 e3 e4 e5
      rw [_log_progress_flag] at e6
      rw [_log_progress_warn] at e7
      by_cases hsig : t.signature.isSome
      · obtain ⟨sv, hsv⟩ := Option.isSome_iff_exists.mp hsig
        rw [if_pos hsig] at e2 e3 e4 e5 e6 e7
        dsimp only at e2 e3 e4 e5 e6 e7
        rw [FactorCache.set_hits] at e4
        rw [FactorCache.set_misses] at e5
        rw [hsv, FactorCache.set_some] at e2 e3
        dsimp only at e2 e3
        have hcw : cacheWrites env (t :: tasksAt tasks rest) =
            ((env.symbol, t.timeframe, t.factor.name, sv), p) ::
              cacheWrites env (tasksAt tasks rest) := by
          unfold cacheWrites
          rw [List.filter_cons, if_pos hsig]
          simp [hsv, hvd]
        refine ⟨st2, ?_, ?_, ?_, e4, e5, e6, e7⟩
        · rw [hstep, e1, htA, List.map_cons, hvd, hlen]
          rfl
        · rw [e2, htA, hcw]
          rfl
        · rw [e3, htA, List.filter_cons, if_pos hsig]
          simp only [List.length_cons]
          omega
      · rw [if_neg hsig] at e2 e3 e4 e5 e6 e7
        have hcw : cacheWrites env (t :: tasksAt tasks rest) =
            cacheWrites env (tasksAt tasks rest) := by
          unfold cacheWrites
          rw [List.filter_cons, if_neg hsig]
        refine ⟨st2, ?_, ?_, ?_, e4, e5, e6, e7⟩
        · rw [hstep, e1, htA, List.map_cons, hvd, hlen]
          rfl
        · rw [e2, htA, hcw]
        · rw [e3, htA, List.filter_cons, if_neg hsig]

/-- The dispatch loop when the pool raises a startup-class error after
`n` completions: the units completed so far are merged and written
through, then the loop reports the startup failure with the state it
reached. -/
theorem poolLoop_trigger (env : ExplorerEnv Sig) (tasks : List (WorkTask Sig))
    (dataset : List (String × PyVal)) (total : Nat) (O : PoolOracle) :
    ∀ (n : Nat) (order : List Nat) (processed : Nat)
      (results : List (String × Payload)) (completed : Nat) (st : ExpState),
    O.poolFail = some (processed + n) →
    n ≤ order.length →
    (∀ i ∈ order.take n, ∃ t, tasks[i]? = some t) →
    (∀ t ∈ tasks, dictGet dataset t.timeframe = some t.data) →
    (∀ t ∈ tasks, ∃ p, localResult env t = .ok p) →
    ∃ st2, poolLoop env tasks dataset total O order processed results completed st =
        .startupFail
          (dictSets results ((tasksAt tasks (order.take n)).map fun t => (t.key, localValD env t)))
          (completed + n) st2 ∧
      st2.cache.data = dictSets st.cache.data (cacheWrites env (tasksAt tasks (order.take n))) ∧
      st2.cache.stats.stores = st.cache.stats.stores +
        ((tasksAt tasks (order.take n)).filter fun t => t.signature.isSome).length ∧
      st2.cache.stats.hits = st.cache.stats.hits ∧
      st2.cache.stats.misses = st.cache.stats.misses ∧
      st2.process_pool_supported = st.process_pool_supported ∧
      st2.pool_warnings = st.pool_warnings := by
  intro n
  induction n with
  | zero =>
      intro order processed results completed st hpf _ _ _ _
      refine ⟨st, ?_, rfl, rfl, rfl, rfl, rfl, rfl⟩
      have hpf0 : O.poolFail = some processed := by simpa using hpf
      rcases order with _ | ⟨i, rest⟩
      · simp only [poolLoop]
        rw [if_pos hpf0]
        rfl
      · simp only [poolLoop]
        rw [if_pos hpf0]
        rfl
  | succ n ihn =>
      intro order processed results completed st hpf hle hvalid hds hcomp
      rcases order with _ | ⟨i, rest⟩
      · simp at hle
      · obtain ⟨t, ht⟩ := hvalid i (by simp)
        have htmem : t ∈ tasks := List.getElem?_mem ht
        obtain ⟨p, hp⟩ := hcomp t htmem
        have hp2 : _compute_locally env t.timeframe t.factor t.data = .ok p := hp
        have hvd : localValD env t = p := localValD_eq hp
        have hnp : ¬O.poolFail = some processed := by
          rw [hpf]
          intro hc
          have := Option.some.inj hc
          omega
        have hpf2 : O.poolFail = some ((processed + 1) + n) := by
          rw [hpf]
          congr 1
          omega
        have hle2 : n ≤ rest.length := by
          rw [List.length_cons] at hle
          omega
        have hvalid2 : ∀ i2 ∈ rest.take n, ∃ t2, tasks[i2]? = some t2 := by
          intro i2 hi2
          refine hvalid i2 ?_
          rw [List.take_succ_cons]
          simp [hi2]
        have htA : tasksAt tasks ((i :: rest).take (n + 1)) =
            t :: tasksAt tasks (rest.take n) := by
          rw [List.take_succ_cons]
          simp [tasksAt, ht]
        have hlen : completed + (n + 1) = (completed + 1) + n := by
          omega
        obtain ⟨st2, e1, e2, e3, e4, e5, e6, e7⟩ :=
          ihn rest (processed + 1)
            (dictSet results (t.timeframe ++ "_" ++ t.factor.name) p)
            (completed + 1)
            (_log_progress
              (if t.signature.isSome then
                { st with cache := (st.cache.set env.symbol t.timeframe
                    t.factor.name t.signature p) }
               else st)
              (completed + 1) total)
            hpf2 hle2 hvalid2 hds hcomp
        have hstep : poolLoop env tasks dataset total O (i :: rest) processed
            results completed st =
            poolLoop env tasks dataset total O rest (processed + 1)
              (dictSet results (t.timeframe ++ "_" ++ t.factor.name) p)
              (completed + 1)
              (_log_progress
                (if t.signature.isSome then
                  { st with cache := (st.cache.set env.symbol t.timeframe
                      t.factor.name t.signature p) }
                 else st)
                (completed + 1) total) := by
          conv =>
            lhs
            simp only [poolLoop]
          rw [if_neg hnp]
          simp only [ht]
          by_cases htf : O.taskFail i
          · rw [if_pos htf]
            simp only [hds t htmem, hp2]
          · rw [if_neg htf]
            rw [_worker_snd env _ _ _ hp2]
        rw [_log_progress_cache] at e2 e3 e4 e5
        rw [_log_progress_flag] at e6
        rw [_log_progress_warn] at e7
        by_cases hsig : t.signature.isSome
        · obtain ⟨sv, hsv⟩ := Option.isSome_iff_exists.mp hsig
          rw [if_pos hsig] at e2 e3 e4 e5 e6 e7
          dsimp only at e2 e3 e4 e5 e6 e7
          rw [FactorCache.set_hits] at e4
          rw [FactorCache.set_misses] at e5
          rw [hsv, FactorCache.set_some] at e2 e3
          dsimp only at e2 e3
          have hcw : cacheWrites env (t :: tasksAt tasks (rest.take n)) =
              ((env.symbol, t.timeframe, t.factor.name, sv), p) ::
                cacheWrites env (tasksAt tasks (rest.take n)) := by
            unfold cacheWrites
            rw [List.filter_cons, if_pos hsig]
            simp [hsv, hvd]
          refine ⟨st2, ?_, ?_, ?_, e4, e5, e6, e7⟩
          · rw [hstep, e1, htA, List.map_cons, hvd, hlen]
            rfl
          · rw [e2, htA, hcw]
            rfl
          · rw [e3, htA, List.filter_cons, if_pos hsig]
            simp only [List.length_cons]
            omega
        · rw [if_neg hsig] at e2 e3 e4 e5 e6 e7
          have hcw : cacheWrites env (t :: tasksAt tasks (rest.take n)) =
              cacheWrites env (tasksAt tasks (rest.take n)) := by
            unfold cacheWrites
            rw [List.filter_cons, if_neg hsig]
          refine ⟨st2, ?_, ?_, ?_, e4, e5, e6, e7⟩
          · rw [hstep, e1, htA, List.map_cons, hvd, hlen]
            rfl
          · rw [e2, htA, hcw]
          · rw [e3, htA, List.filter_cons, if_neg hsig]

end DispatchLemmas

section AssemblyLemmas

variable {Sig : Type}

theorem mem_keys_dictSet {K V : Type} [DecidableEq K] (l : List (K × V))
    (k : K) (v : V) (k2 : K) :
    k2 ∈ (dictSet l k v).map Prod.fst ↔ k2 ∈ l.map Prod.fst ∨ k2 = k := by
  by_cases hm : k ∈ l.map Prod.fst
  · rw [keys_dictSet_of_mem v hm]
    constructor
    · exact fun h => Or.inl h
    · rintro (h | h)
      · exact h
      · exact h ▸ hm
  · rw [keys_dictSet_of_not_mem v hm]
    simp

theorem mem_keys_dictSets {K V : Type} [DecidableEq K] (l : List (K × V))
    (kvs : List (K × V)) (k2 : K) :
    k2 ∈ (dictSets l kvs).map Prod.fst ↔
      k2 ∈ l.map Prod.fst ∨ k2 ∈ kvs.map Prod.fst := by
  induction kvs generalizing l with
  | nil => simp [dictSets]
  | cons p rest ih =>
      rw [dictSets, List.foldl_cons]
      have := ih (dictSet l p.1 p.2)
      rw [dictSets] at this
      rw [this, mem_keys_dictSet]
      simp only [List.map_cons, List.mem_cons]
      tauto

theorem nodup_keys_dictSets {K V : Type} [DecidableEq K] (l : List (K × V))
    (kvs : List (K × V)) (h : (l.map Prod.fst).Nodup) :
    ((dictSets l kvs).map Prod.fst).Nodup := by
  induction kvs generalizing l with
  | nil => exact h
  | cons p rest ih =>
      rw [dictSets, List.foldl_cons]
      have := ih (dictSet l p.1 p.2) (nodup_keys_dictSet p.1 p.2 h)
      rw [dictSets] at this
      exact this

theorem tasksAt_range (tasks : List (WorkTask Sig)) :
    tasksAt tasks (List.range tasks.length) = tasks := by
  unfold tasksAt
  induction tasks with
  | nil => rfl
  | cons a rest ih =>
      rw [List.length_cons, List.range_succ_eq_map, List.filterMap_cons]
      simp only [List.getElem?_cons_zero, List.filterMap_map]
      have hc : ((fun i => (a :: rest)[i]?) ∘ (· + 1)) = fun i => rest[i]? := by
        funext i
        simp
      rw [hc, ih]

theorem tasksAt_perm (tasks : List (WorkTask Sig)) (order : List Nat)
    (h : List.Perm order (List.range tasks.length)) :
    List.Perm (tasksAt tasks order) tasks := by
  have h2 : List.Perm (tasksAt tasks order) (tasksAt tasks (List.range tasks.length)) :=
    h.filterMap _
  rw [tasksAt_range] at h2
  exact h2

theorem mem_of_mem_tasksAt (tasks : List (WorkTask Sig)) (order : List Nat)
    {t : WorkTask Sig} (h : t ∈ tasksAt tasks order) : t ∈ tasks := by
  unfold tasksAt at h
  obtain ⟨i, _, hi⟩ := List.mem_filterMap.mp h
  exact List.getElem?_mem hi

theorem length_flatMap_const {α β : Type} (l : List α) (f : α → List β) (n : Nat)
    (h : ∀ a ∈ l, (f a).length = n) : (l.flatMap f).length = l.length * n := by
  induction l with
  | nil => simp
  | cons a rest ih =>
      rw [List.flatMap_cons, List.length_append, h a (by simp),
        ih (fun a2 ha2 => h a2 (by simp [ha2])), List.length_cons]
      ring

/-- The grid keys of one exploration call. -/
theorem allKeys_length (env : ExplorerEnv Sig) :
    (allKeys env).length = env.timeframes.length * env.factors.length := by
  unfold allKeys
  exact length_flatMap_const _ _ _ (fun tf _ => by rw [List.length_map])

/-- Every grid key is covered exactly once by the cache hits and the
pending tasks of the build phase. -/
theorem grid_partition (env : ExplorerEnv Sig) (cd : List (CacheKey × Payload))
    (D : String → PyVal) (tfs : List String) :
    List.Perm
      ((gridHitPairs env cd D tfs).map Prod.fst ++
        (gridMisses env cd D tfs).map WorkTask.key)
      (tfs.flatMap fun tf => env.factors.map fun f => tf ++ "_" ++ f.name) := by
  unfold gridHitPairs gridMisses
  rw [List.map_flatMap, List.map_flatMap]
  refine List.Perm.trans (List.flatMap_append_perm tfs _ _) ?_
  refine List.Perm.flatMap_left tfs ?_
  intro tf _
  unfold hitPairs
  rw [List.map_map, List.map_map]
  have h1 : (Prod.fst ∘ fun f : FactorCalculator Sig =>
      (tf ++ "_" ++ f.name, (cachedVal env cd tf
        (FactorCache.compute_signature env.ser (D tf)) f).getD [])) =
      fun f : FactorCalculator Sig => tf ++ "_" ++ f.name := rfl
  have h2 : (WorkTask.key ∘ fun f : FactorCalculator Sig =>
      (⟨tf, f, D tf, FactorCache.compute_signature env.ser (D tf)⟩ : WorkTask Sig)) =
      fun f : FactorCalculator Sig => tf ++ "_" ++ f.name := rfl
  rw [h1, h2]
  unfold hitsOf missesOf
  rw [← List.map_append]
  exact List.Perm.map _ (List.filter_append_perm _ env.factors)

/-- Membership characterization of the pending tasks. -/
theorem gridMisses_mem (env : ExplorerEnv Sig) (cd : List (CacheKey × Payload))
    (D : String → PyVal) (tfs : List String) {t : WorkTask Sig}
    (ht : t ∈ gridMisses env cd D tfs) :
    t.timeframe ∈ tfs ∧ t.data = D t.timeframe := by
  unfold gridMisses at ht
  obtain ⟨tf, htf, hm⟩ := List.mem_flatMap.mp ht
  obtain ⟨f, _, heq⟩ := List.mem_map.mp hm
  subst heq
  exact ⟨htf, rfl⟩

/-- Pointwise and key-set characterization of any final result map of
the shape the dispatcher produces: the map after merging the build-time
cache hits, then some already-merged units `Q`, then one final pass `F`
covering every pending unit. -/
theorem final_results_spec (env : ExplorerEnv Sig) (cd : List (CacheKey × Payload))
    (D : String → PyVal)
    (hkeys : (allKeys env).Nodup)
    (F Q : List (String × Payload))
    (hF : List.Perm F ((gridMisses env cd D env.timeframes).map
      fun t => (t.key, localValD env t)))
    (hQ : ∀ q ∈ Q, q ∈ F) :
    (∀ t ∈ gridMisses env cd D env.timeframes,
      dictGet (dictSets (dictSets (dictSets []
        (gridHitPairs env cd D env.timeframes)) Q) F) t.key =
        some (localValD env t)) ∧
    (∀ kp ∈ gridHitPairs env cd D env.timeframes,
      dictGet (dictSets (dictSets (dictSets []
        (gridHitPairs env cd D env.timeframes)) Q) F) kp.1 = some kp.2) ∧
    List.Perm ((dictSets (dictSets (dictSets []
        (gridHitPairs env cd D env.timeframes)) Q) F).map Prod.fst)
      (allKeys env) := by
  have hpart := grid_partition env cd D env.timeframes
  have hpart2 : List.Perm
      ((gridHitPairs env cd D env.timeframes).map Prod.fst ++
        (gridMisses env cd D env.timeframes).map WorkTask.key)
      (allKeys env) := hpart
  have hndAB : ((gridHitPairs env cd D env.timeframes).map Prod.fst ++
      (gridMisses env cd D env.timeframes).map WorkTask.key).Nodup :=
    hpart2.nodup_iff.mpr hkeys
  rw [List.nodup_append] at hndAB
  obtain ⟨hndH, hndT, hdisj⟩ := hndAB
  have hFkeys : List.Perm (F.map Prod.fst)
      ((gridMisses env cd D env.timeframes).map WorkTask.key) := by
    have h1 := hF.map Prod.fst
    rw [List.map_map] at h1
    exact h1
  have hFnd : (F.map Prod.fst).Nodup := hFkeys.nodup_iff.mpr hndT
  refine ⟨?_, ?_, ?_⟩
  · intro t ht
    have hmem : (t.key, localValD env t) ∈ F := by
      rw [hF.mem_iff]
      exact List.mem_map.mpr ⟨t, ht, rfl⟩
    exact dictGet_dictSets_of_mem _ F hFnd hmem
  · intro kp hkp
    have hk1 : kp.1 ∈ (gridHitPairs env cd D env.timeframes).map Prod.fst :=
      List.mem_map.mpr ⟨kp, hkp, rfl⟩
    have hknotT : kp.1 ∉ (gridMisses env cd D env.timeframes).map
        WorkTask.key := hdisj hk1
    have hknotF : kp.1 ∉ F.map Prod.fst := fun hc => hknotT (hFkeys.mem_iff.mp hc)
    have hknotQ : kp.1 ∉ Q.map Prod.fst := by
      intro hc
      obtain ⟨q, hq, hq1⟩ := List.mem_map.mp hc
      exact hknotF (hq1 ▸ List.mem_map.mpr ⟨q, hQ q hq, rfl⟩)
    rw [dictGet_dictSets_of_not_mem _ F hknotF,
      dictGet_dictSets_of_not_mem _ Q hknotQ]
    have hkpeta : (kp.1, kp.2) ∈ gridHitPairs env cd D env.timeframes := hkp
    exact dictGet_dictSets_of_mem _ _ hndH hkpeta
  · have hshape : dictSets (dictSets (dictSets []
        (gridHitPairs env cd D env.timeframes)) Q) F =
        dictSets [] (gridHitPairs env cd D env.timeframes ++ (Q ++ F)) := by
      rw [dictSets_append, dictSets_append]
    rw [hshape]
    have hnd2 : ((dictSets [] (gridHitPairs env cd D env.timeframes ++ (Q ++ F))).map
        Prod.fst).Nodup := nodup_keys_dictSets _ _ (by simp)
    rw [List.perm_ext_iff_of_nodup hnd2 hkeys]
    intro a
    rw [mem_keys_dictSets]
    simp only [List.map_nil, List.not_mem_nil, false_or, List.map_append,
      List.mem_append]
    constructor
    · rintro (h | h | h)
      · rw [← hpart2.mem_iff]
        exact List.mem_append.mpr (Or.inl h)
      · have : a ∈ F.map Prod.fst := by
          obtain ⟨q, hq, hq1⟩ := List.mem_map.mp h
          exact hq1 ▸ List.mem_map.mpr ⟨q, hQ q hq, rfl⟩
        rw [← hpart2.mem_iff]
        exact List.mem_append.mpr (Or.inr (hFkeys.mem_iff.mp this))
      · rw [← hpart2.mem_iff]
        exact List.mem_append.mpr (Or.inr (hFkeys.mem_iff.mp h))
    · intro h
      rw [← hpart2.mem_iff] at h
      rcases List.mem_append.mp h with h | h
      · exact Or.inl h
      · exact Or.inr (Or.inr (hFkeys.mem_iff.mpr h))

section MainSpec

variable {Sig : Type}

/-- The main characterization of `explore_all_factors`: when every
dataset loads, the grid keys are pairwise distinct, the completion
order schedules every pending unit exactly once and every pending
unit's local computation succeeds, the call returns a result map whose
key set is exactly the grid, whose pending units carry the value a
direct synchronous computation produces, and whose cache hits carry the
cached payload — whatever the mix of worker failures and pool startup
failures the oracle injects, and whether or not the instance has
already been downgraded to sequential mode. -/
theorem explore_all_spec (env : ExplorerEnv Sig) (st : ExpState) (O : PoolOracle)
    (D : String → PyVal)
    (hload : ∀ tf ∈ env.timeframes, env.load env.symbol tf = .ok (D tf))
    (hkeys : (allKeys env).Nodup)
    (horder : List.Perm O.order
      (List.range (gridMisses env st.cache.data D env.timeframes).length))
    (hcomp : ∀ t ∈ gridMisses env st.cache.data D env.timeframes,
      ∃ p, localResult env t = .ok p) :
    ∃ res st2, explore_all_factors env st O = (.ok res, st2) ∧
      List.Perm (res.map Prod.fst) (allKeys env) ∧
      (∀ t ∈ gridMisses env st.cache.data D env.timeframes,
        dictGet res t.key = some (localValD env t)) ∧
      (∀ kp ∈ gridHitPairs env st.cache.data D env.timeframes,
        dictGet res kp.1 = some kp.2) := by
  obtain ⟨B, hB, j1, j2, j3, j4, j5, j6, j7, j8, j9, j10, j11⟩ :=
    buildTimeframeLoop_spec env (env.timeframes.length * env.factors.length) D
      env.timeframes
      ⟨[], [], [], 0, { st with progress_logged := 0, progress_log := [] }⟩ hload
  dsimp only at j1 j2 j3 j4 j5 j6 j7 j8 j9 j10 j11
  rw [List.nil_append] at j7
  have hbuild : _build_tasks env { st with progress_logged := 0, progress_log := [] } =
      .ok B := hB
  have hdsB : ∀ t ∈ gridMisses env st.cache.data D env.timeframes,
      dictGet B.dataset t.timeframe = some t.data := by
    intro t ht
    obtain ⟨htf, hdata⟩ := gridMisses_mem env st.cache.data D env.timeframes ht
    rw [j10 t.timeframe htf, hdata]
  unfold explore_all_factors
  dsimp only
  rw [hbuild]
  dsimp only
  rw [j7, j9]
  by_cases hempty : (gridMisses env st.cache.data D env.timeframes).isEmpty
  · rw [if_pos hempty]
    have hTMnil : gridMisses env st.cache.data D env.timeframes = [] :=
      List.isEmpty_iff.mp hempty
    obtain ⟨c1, c2, c3⟩ := final_results_spec env st.cache.data D hkeys
      ([] : List (String × Payload)) ([] : List (String × Payload))
      (by rw [hTMnil]; rfl) (by intro q hq; exact hq)
    exact ⟨_, _, rfl, c3, c1, c2⟩
  · rw [if_neg hempty]
    have hvalid : ∀ i ∈ O.order, ∃ t,
        (gridMisses env st.cache.data D env.timeframes)[i]? = some t := by
      intro i hi
      have : i ∈ List.range (gridMisses env st.cache.data
          D env.timeframes).length := horder.mem_iff.mp hi
      rw [List.mem_range] at this
      exact ⟨_, List.getElem?_eq_getElem this⟩
    rcases hflag : B.st.process_pool_supported with _ | _
    · -- the instance had already been downgraded: sequential execution
      rw [if_pos rfl]
      obtain ⟨s1, s2, s3⟩ := seqLoop_spec env B.dataset
        (env.timeframes.length * env.factors.length)
        (gridMisses env st.cache.data D env.timeframes)
        (dictSets [] (gridHitPairs env st.cache.data D env.timeframes))
        (dictSets [] (gridHitPairs env st.cache.data D env.timeframes)).length
        B.st hdsB hcomp
      obtain ⟨c1, c2, c3⟩ := final_results_spec env st.cache.data D hkeys
        ((gridMisses env st.cache.data D env.timeframes).map
          fun t => (t.key, localValD env t))
        ([] : List (String × Payload))
        (List.Perm.refl _) (by intro q hq; simp at hq)
      refine ⟨_, _, rfl, ?_, ?_, ?_⟩
      · rw [s1]
        exact c3
      · intro t ht
        rw [s1]
        exact c1 t ht
      · intro kp hkp
        rw [s1]
        exact c2 kp hkp
    · -- pool mode
      rw [if_neg (by simp)]
      by_cases htrig : ∃ k, O.poolFail = some k ∧ k ≤ O.order.length
      · -- a startup-class pool failure hits during this call
        obtain ⟨k, hpf, hk⟩ := htrig
        obtain ⟨stP, e1, e2, e3, e4, e5, e6, e7⟩ :=
          poolLoop_trigger env
            (gridMisses env st.cache.data D env.timeframes)
            B.dataset (env.timeframes.length * env.factors.length) O k O.order 0
            (dictSets [] (gridHitPairs env st.cache.data D env.timeframes))
            (dictSets [] (gridHitPairs env st.cache.data D env.timeframes)).length
            B.st (by rw [hpf]; congr 1; omega) hk
            (fun i hi => hvalid i (List.mem_of_mem_take hi)) hdsB hcomp
        rw [e1]
        dsimp only
        obtain ⟨s1, s2, s3⟩ := seqLoop_spec env B.dataset
          (env.timeframes.length * env.factors.length)
          (gridMisses env st.cache.data D env.timeframes)
          (dictSets (dictSets [] (gridHitPairs env st.cache.data D env.timeframes))
            ((tasksAt (gridMisses env st.cache.data D env.timeframes)
              (O.order.take k)).map fun t => (t.key, localValD env t)))
          ((dictSets [] (gridHitPairs env st.cache.data D env.timeframes)).length + k)
          { stP with process_pool_supported := false,
                     pool_warnings := stP.pool_warnings + 1 }
          hdsB hcomp
        obtain ⟨c1, c2, c3⟩ := final_results_spec env st.cache.data D hkeys
          ((gridMisses env st.cache.data D env.timeframes).map
            fun t => (t.key, localValD env t))
          ((tasksAt (gridMisses env st.cache.data D env.timeframes)
            (O.order.take k)).map fun t => (t.key, localValD env t))
          (List.Perm.refl _)
          (by
            intro q hq
            obtain ⟨t, ht, hq1⟩ := List.mem_map.mp hq
            exact hq1 ▸ List.mem_map.mpr
              ⟨t, mem_of_mem_tasksAt _ _ ht, rfl⟩)
        refine ⟨_, _, rfl, ?_, ?_, ?_⟩
        · rw [s1]
          exact c3
        · intro t ht
          rw [s1]
          exact c1 t ht
        · intro kp hkp
          rw [s1]
          exact c2 kp hkp
      · -- the pool survives the whole call
        have hnotrig : ∀ j, O.poolFail = some j → j < 0 ∨ 0 + O.order.length < j := by
          intro j hj
          right
          rw [Nat.zero_add]
          by_contra hc
          exact htrig ⟨j, hj, by omega⟩
        obtain ⟨stP, e1, e2, e3, e4, e5, e6, e7⟩ :=
          poolLoop_spec env
            (gridMisses env st.cache.data D env.timeframes)
            B.dataset (env.timeframes.length * env.factors.length) O O.order 0
            (dictSets [] (gridHitPairs env st.cache.data D env.timeframes))
            (dictSets [] (gridHitPairs env st.cache.data D env.timeframes)).length
            B.st hvalid hdsB hcomp hnotrig
        rw [e1]
        dsimp only
        obtain ⟨c1, c2, c3⟩ := final_results_spec env st.cache.data D hkeys
          ((tasksAt (gridMisses env st.cache.data D env.timeframes)
            O.order).map fun t => (t.key, localValD env t))
          ([] : List (String × Payload))
          ((tasksAt_perm _ _ horder).map _) (by intro q hq; simp at hq)
        exact ⟨_, _, rfl, c3, c1, c2⟩

theorem flatMap_eq_nil_of {α β : Type} (l : List α) (f : α → List β)
    (h : ∀ a ∈ l, f a = []) : l.flatMap f = [] := by
  induction l with
  | nil => rfl
  | cons a rest ih =>
      rw [List.flatMap_cons, h a (by simp), List.nil_append]
      exact ih fun a2 ha2 => h a2 (by simp [ha2])

theorem tasksAt_nil (order : List Nat) :
    tasksAt ([] : List (WorkTask Sig)) order = [] := by
  unfold tasksAt
  induction order with
  | nil => rfl
  | cons i rest ih => simp

theorem cachedVal_empty_cache (env : ExplorerEnv Sig) (tf : String)
    (sig : Option String) (f : FactorCalculator Sig) :
    cachedVal env ([] : List (CacheKey × Payload)) tf sig f = none := by
  unfold cachedVal
  cases hmk : FactorCache.make_key env.symbol tf f.name sig <;> simp [dictGet]

theorem hitsOf_empty_cache (env : ExplorerEnv Sig) (tf : String)
    (sig : Option String) (fs : List (FactorCalculator Sig)) :
    hitsOf env ([] : List (CacheKey × Payload)) tf sig fs = [] := by
  unfold hitsOf
  rw [List.filter_eq_nil_iff]
  intro f _
  simp [cachedVal_empty_cache]

theorem missesOf_empty_cache (env : ExplorerEnv Sig) (tf : String)
    (sig : Option String) (fs : List (FactorCalculator Sig)) :
    missesOf env ([] : List (CacheKey × Payload)) tf sig fs = fs := by
  unfold missesOf
  rw [List.filter_eq_self]
  intro f _
  simp [cachedVal_empty_cache]

theorem gridHitPairs_empty_cache (env : ExplorerEnv Sig) (D : String → PyVal)
    (tfs : List String) :
    gridHitPairs env ([] : List (CacheKey × Payload)) D tfs = [] := by
  unfold gridHitPairs
  refine flatMap_eq_nil_of _ _ fun tf _ => ?_
  unfold hitPairs
  rw [hitsOf_empty_cache, List.map_nil]

theorem gridMisses_empty_cache (env : ExplorerEnv Sig) (D : String → PyVal)
    (tfs : List String) :
    gridMisses env ([] : List (CacheKey × Payload)) D tfs =
      tfs.flatMap fun tf => env.factors.map fun f =>
        ⟨tf, f, D tf, FactorCache.compute_signature env.ser (D tf)⟩ := by
  unfold gridMisses
  induction tfs with
  | nil => rfl
  | cons tf rest ih =>
      rw [List.flatMap_cons, List.flatMap_cons, missesOf_empty_cache, ih]

theorem gridMisses_mem_struct (env : ExplorerEnv Sig)
    (cd : List (CacheKey × Payload)) (D : String → PyVal) (tfs : List String)
    {t : WorkTask Sig} (ht : t ∈ gridMisses env cd D tfs) :
    ∃ tf ∈ tfs, ∃ f ∈ env.factors,
      t = ⟨tf, f, D tf, FactorCache.compute_signature env.ser (D tf)⟩ := by
  unfold gridMisses at ht
  obtain ⟨tf, htf, hm⟩ := List.mem_flatMap.mp ht
  obtain ⟨f, hf, heq⟩ := List.mem_map.mp hm
  exact ⟨tf, htf, f, List.mem_of_mem_filter hf, heq.symm⟩

theorem allKeys_mem_struct (env : ExplorerEnv Sig) {k : String}
    (hk : k ∈ allKeys env) :
    ∃ tf ∈ env.timeframes, ∃ f ∈ env.factors, k = tf ++ "_" ++ f.name := by
  unfold allKeys at hk
  obtain ⟨tf, htf, hm⟩ := List.mem_flatMap.mp hk
  obtain ⟨f, hf, heq⟩ := List.mem_map.mp hm
  exact ⟨tf, htf, f, hf, heq.symm⟩

/-- Full characterization of one benign run: the instance is in pool
mode, the pool never fails, the completion order covers every pending
unit, every dataset loads and every pending computation succeeds.  Then
the call returns the complete result map, the cache gains exactly the
writes of the dispatched units, hits advance by the number of
build-phase cache hits, misses by the number of pending units, stores
by the number of dispatched units with a present fingerprint, and the
sticky flag and warning count are untouched. -/
theorem explore_all_benign (env : ExplorerEnv Sig) (st : ExpState) (O : PoolOracle)
    (D : String → PyVal)
    (hload : ∀ tf ∈ env.timeframes, env.load env.symbol tf = .ok (D tf))
    (hkeys : (allKeys env).Nodup)
    (hflag : st.process_pool_supported = true)
    (hpf : O.poolFail = none)
    (horder : List.Perm O.order
      (List.range (gridMisses env st.cache.data D env.timeframes).length))
    (hcomp : ∀ t ∈ gridMisses env st.cache.data D env.timeframes,
      ∃ p, localResult env t = .ok p) :
    ∃ res st2, explore_all_factors env st O = (.ok res, st2) ∧
      List.Perm (res.map Prod.fst) (allKeys env) ∧
      (∀ t ∈ gridMisses env st.cache.data D env.timeframes,
        dictGet res t.key = some (localValD env t)) ∧
      (∀ kp ∈ gridHitPairs env st.cache.data D env.timeframes,
        dictGet res kp.1 = some kp.2) ∧
      st2.cache.data = dictSets st.cache.data
        (cacheWrites env (tasksAt (gridMisses env st.cache.data D
          env.timeframes) O.order)) ∧
      st2.cache.stats.hits = st.cache.stats.hits +
        (gridHitPairs env st.cache.data D env.timeframes).length ∧
      st2.cache.stats.misses = st.cache.stats.misses +
        (gridMisses env st.cache.data D env.timeframes).length ∧
      st2.cache.stats.stores = st.cache.stats.stores +
        ((tasksAt (gridMisses env st.cache.data D env.timeframes)
          O.order).filter fun t => t.signature.isSome).length ∧
      st2.process_pool_supported = st.process_pool_supported ∧
      st2.pool_warnings = st.pool_warnings := by
  obtain ⟨B, hB, j1, j2, j3, j4, j5, j6, j7, j8, j9, j10, j11⟩ :=
    buildTimeframeLoop_spec env (env.timeframes.length * env.factors.length) D
      env.timeframes
      ⟨[], [], [], 0, { st with progress_logged := 0, progress_log := [] }⟩ hload
  dsimp only at j1 j2 j3 j4 j5 j6 j7 j8 j9 j10 j11
  rw [List.nil_append] at j7
  have hbuild : _build_tasks env { st with progress_logged := 0, progress_log := [] } =
      .ok B := hB
  have hdsB : ∀ t ∈ gridMisses env st.cache.data D env.timeframes,
      dictGet B.dataset t.timeframe = some t.data := by
    intro t ht
    obtain ⟨htf, hdata⟩ := gridMisses_mem env st.cache.data D env.timeframes ht
    rw [j10 t.timeframe htf, hdata]
  unfold explore_all_factors
  dsimp only
  rw [hbuild]
  dsimp only
  rw [j7, j9]
  by_cases hempty : (gridMisses env st.cache.data D env.timeframes).isEmpty
  · rw [if_pos hempty]
    have hTMnil : gridMisses env st.cache.data D env.timeframes = [] :=
      List.isEmpty_iff.mp hempty
    obtain ⟨c1, c2, c3⟩ := final_results_spec env st.cache.data D hkeys
      ([] : List (String × Payload)) ([] : List (String × Payload))
      (by rw [hTMnil]; rfl) (by intro q hq; exact hq)
    refine ⟨_, _, rfl, c3, c1, c2, ?_, ?_, ?_, ?_, ?_, ?_⟩
    · rw [j1, hTMnil, tasksAt_nil]
      rfl
    · exact j2
    · exact j3
    · rw [j4, hTMnil, tasksAt_nil]
      rfl
    · exact j5
    · exact j6
  · rw [if_neg hempty]
    have hvalid : ∀ i ∈ O.order, ∃ t,
        (gridMisses env st.cache.data D env.timeframes)[i]? = some t := by
      intro i hi
      have : i ∈ List.range (gridMisses env st.cache.data
          D env.timeframes).length := horder.mem_iff.mp hi
      rw [List.mem_range] at this
      exact ⟨_, List.getElem?_eq_getElem this⟩
    have hflagB : B.st.process_pool_supported = true := by rw [j5]; exact hflag
    rw [hflagB]
    rw [if_neg (by simp)]
    have hnotrig : ∀ j, O.poolFail = some j → j < 0 ∨ 0 + O.order.length < j := by
      intro j hj
      rw [hpf] at hj
      exact Option.noConfusion hj
    obtain ⟨stP, e1, e2, e3, e4, e5, e6, e7⟩ :=
      poolLoop_spec env
        (gridMisses env st.cache.data D env.timeframes)
        B.dataset (env.timeframes.length * env.factors.length) O O.order 0
        (dictSets [] (gridHitPairs env st.cache.data D env.timeframes))
        (dictSets [] (gridHitPairs env st.cache.data D env.timeframes)).length
        B.st hvalid hdsB hcomp hnotrig
    rw [e1]
    dsimp only
    obtain ⟨c1, c2, c3⟩ := final_results_spec env st.cache.data D hkeys
      ((tasksAt (gridMisses env st.cache.data D env.timeframes)
        O.order).map fun t => (t.key, localValD env t))
      ([] : List (String × Payload))
      ((tasksAt_perm _ _ horder).map _) (by intro q hq; simp at hq)
    refine ⟨_, _, rfl, c3, c1, c2, ?_, ?_, ?_, ?_, ?_, ?_⟩
    · rw [e2, j1]
    · rw [e4, j2]
    · rw [e5, j3]
    · rw [e3, j4]
    · rw [e6, j5]
    · rw [e7, j6]

end MainSpec

end AssemblyLemmas

section CacheTraceLemmas

theorem runOps_counter : ∀ (ops : List CacheOp) (c : FactorCache) (k : Nat),
    c.stats.hits + c.stats.misses = k →
    (runOps c ops).stats.hits + (runOps c ops).stats.misses =
      ops.foldl getCount k := by
  intro ops
  induction ops with
  | nil => intro c k hk; exact hk
  | cons op rest ih =>
      intro c k hk
      rcases op with ⟨s, tf, fn, sig⟩ | ⟨s, tf, fn, sig, v⟩ | _
      · refine ih _ (k + 1) ?_
        rcases FactorCache.get_stats c s tf fn sig with ⟨h1, h2, _⟩ | ⟨h1, h2, _⟩ <;>
          · show ((c.get s tf fn sig).2).stats.hits +
              ((c.get s tf fn sig).2).stats.misses = k + 1
            rw [h1, h2]
            omega
      · refine ih _ k ?_
        show (c.set s tf fn sig v).stats.hits +
          (c.set s tf fn sig v).stats.misses = k
        rw [FactorCache.set_hits, FactorCache.set_misses]
        exact hk
      · refine ih _ 0 ?_
        rfl

end CacheTraceLemmas

section ClaimTheorems

/-- C6: a `get` with an absent fingerprint is a counted miss and never
raises; a `set` with an absent fingerprint is a total no-op and never
raises.  (Totality — the cache never surfaces an error — is expressed
by both operations being total functions of the state.) -/
theorem c6_absent_fingerprint_fail_open :
    (∀ (c : FactorCache) (s tf fn : String),
      c.get s tf fn none =
        (none, { c with stats := { c.stats with misses := c.stats.misses + 1 } })) ∧
    (∀ (c : FactorCache) (s tf fn : String) (r : Payload),
      c.set s tf fn none r = c) := by
  exact ⟨fun c s tf fn => rfl, fun c s tf fn r => rfl⟩

/-- C7: fingerprinting is a total function that returns `none` exactly
when the dataset itself is absent; on tabular input it hashes the
serialization of the trailing sample of at most 200 rows; on other
input it hashes the pickled bytes, falling back to the `repr` rendering
when pickling raises instead of propagating the error. -/
theorem c7_compute_signature_total (ser : SerEnv) :
    (∀ d : PyVal, FactorCache.compute_signature ser d = none ↔ d = PyVal.pynone) ∧
    (∀ rows : List String, ∃ sample : List String,
      sample = rows.drop (rows.length - min rows.length 200) ∧
      sample.length = min rows.length 200 ∧
      sample.length ≤ 200 ∧
      FactorCache.compute_signature ser (PyVal.frame rows) =
        some (ser.sha1 (ser.toJson sample))) ∧
    (∀ reprStr bytes : String,
      FactorCache.compute_signature ser (PyVal.obj reprStr (some bytes)) =
        some (ser.sha1 bytes)) ∧
    (∀ reprStr : String,
      FactorCache.compute_signature ser (PyVal.obj reprStr none) =
        some (ser.sha1 reprStr)) := by
  refine ⟨compute_signature_eq_none_iff ser, compute_signature_frame_sample ser,
    fun reprStr bytes => rfl, fun reprStr => rfl⟩

/-- C9: `explore_single_factor` computes synchronously in the calling
process via `_compute_locally` and leaves the instance state — cache
contents, cache counters, sticky pool flag and progress counter —
entirely unchanged. -/
theorem c9_explore_single_frame {Sig : Type} (env : ExplorerEnv Sig)
    (st : ExpState) (tf : String) (f : FactorCalculator Sig)
    (dOpt : Option PyVal) :
    (explore_single_factor env st tf f dOpt).2 = st ∧
    ((explore_single_factor env st tf f dOpt).2).cache.data = st.cache.data ∧
    cache_stats ((explore_single_factor env st tf f dOpt).2) = cache_stats st ∧
    process_pool_available ((explore_single_factor env st tf f dOpt).2) =
      process_pool_available st ∧
    ((explore_single_factor env st tf f dOpt).2).progress_logged =
      st.progress_logged ∧
    (∀ d : PyVal, explore_single_factor env st tf f (some d) =
      (_compute_locally env tf f d, st)) := by
  have h2 : (explore_single_factor env st tf f dOpt).2 = st := by
    rcases dOpt with _ | d
    · unfold explore_single_factor
      rcases env.load env.symbol tf with m | d2 <;> rfl
    · rfl
  exact ⟨h2, by rw [h2], by rw [h2], by rw [h2], by rw [h2], fun d => rfl⟩

/-- C10: every `get` advances exactly one of the hit or miss counters
by one (never both, never neither), so the two counters always sum to
the number of `get` calls since construction or the last `clear`;
`clear` empties the store and zeroes all three counters, after which
every `get` misses. -/
theorem c10_counter_discipline :
    (∀ (c : FactorCache) (s tf fn : String) (sig : Option String),
      (((c.get s tf fn sig).2).stats.hits = c.stats.hits + 1 ∧
         ((c.get s tf fn sig).2).stats.misses = c.stats.misses ∧
         ((c.get s tf fn sig).1).isSome = true) ∨
      (((c.get s tf fn sig).2).stats.hits = c.stats.hits ∧
         ((c.get s tf fn sig).2).stats.misses = c.stats.misses + 1 ∧
         (c.get s tf fn sig).1 = none)) ∧
    (∀ ops : List CacheOp,
      (runOps { } ops).stats.hits + (runOps { } ops).stats.misses =
        getsSinceClear ops) ∧
    (∀ c : FactorCache, c.clear = { data := [], stats := {} }) ∧
    (∀ (c : FactorCache) (s tf fn : String) (sig : Option String),
      ((c.clear.get s tf fn sig).1 = none ∧
        ((c.clear.get s tf fn sig).2).stats.misses = 1)) := by
  refine ⟨FactorCache.get_stats, ?_, fun c => rfl, ?_⟩
  · intro ops
    exact runOps_counter ops { } 0 rfl
  · intro c s tf fn sig
    rcases sig with _ | sv
    · exact ⟨rfl, rfl⟩
    · exact ⟨rfl, rfl⟩

section StickyLemmas

variable {Sig : Type}

/-- The build phase never touches the sticky flag or the warning count,
whether it succeeds or raises upstream-fatally. -/
theorem buildTimeframeLoop_outframe (env : ExplorerEnv Sig) (total : Nat) :
    ∀ (tfs : List String) (acc : BuildAcc Sig),
    (buildOutState (buildTimeframeLoop env total tfs acc)).process_pool_supported =
      acc.st.process_pool_supported ∧
    (buildOutState (buildTimeframeLoop env total tfs acc)).pool_warnings =
      acc.st.pool_warnings := by
  intro tfs
  induction tfs with
  | nil => intro acc; exact ⟨rfl, rfl⟩
  | cons tf rest ih =>
      intro acc
      rcases hl : env.load env.symbol tf with m | data
      · simp only [buildTimeframeLoop, hl]
        exact ⟨rfl, rfl⟩
      · simp only [buildTimeframeLoop, hl]
        obtain ⟨b6, b7⟩ := And.intro
          (buildFactorLoop_spec env total tf data
            (FactorCache.compute_signature env.ser data) env.factors
            { acc with dataset := dictSet acc.dataset tf data }).2.2.2.2.2.1
          (buildFactorLoop_spec env total tf data
            (FactorCache.compute_signature env.ser data) env.factors
            { acc with dataset := dictSet acc.dataset tf data }).2.2.2.2.2.2.1
        obtain ⟨i1, i2⟩ := ih (buildFactorLoop env total tf data
          (FactorCache.compute_signature env.ser data) env.factors
          { acc with dataset := dictSet acc.dataset tf data })
        exact ⟨by rw [i1, b6], by rw [i2, b7]⟩

/-- A fresh-start immediate pool startup failure reports before any
completion is processed. -/
theorem poolLoop_trigger0 (env : ExplorerEnv Sig) (tasks : List (WorkTask Sig))
    (dataset : List (String × PyVal)) (total : Nat) (O : PoolOracle)
    (hpf : O.poolFail = some 0) (order : List Nat)
    (results : List (String × Payload)) (completed : Nat) (st : ExpState) :
    poolLoop env tasks dataset total O order 0 results completed st =
      .startupFail results completed st := by
  rcases order with _ | ⟨i, rest⟩
  · simp only [poolLoop]
    rw [if_pos hpf]
  · simp only [poolLoop]
    rw [if_pos hpf]

/-- Once the sticky flag is false, one more `explore_all_factors` call
leaves it false. -/
theorem explore_all_flag_sticky (env : ExplorerEnv Sig) (st : ExpState)
    (O : PoolOracle) (hf : st.process_pool_supported = false) :
    ((explore_all_factors env st O).2).process_pool_supported = false := by
  unfold explore_all_factors
  dsimp only
  rcases hb : _build_tasks env { st with progress_logged := 0, progress_log := [] }
    with ⟨m, st1⟩ | B
  · have := (buildTimeframeLoop_outframe env
      (env.timeframes.length * env.factors.length) env.timeframes
      ⟨[], [], [], 0, { st with progress_logged := 0, progress_log := [] }⟩).1
    unfold _build_tasks at hb
    rw [hb] at this
    dsimp [buildOutState] at this
    dsimp only
    rw [this]
    exact hf
  · have hBf : B.st.process_pool_supported = false := by
      have := (buildTimeframeLoop_outframe env
        (env.timeframes.length * env.factors.length) env.timeframes
        ⟨[], [], [], 0, { st with progress_logged := 0, progress_log := [] }⟩).1
      unfold _build_tasks at hb
      rw [hb] at this
      dsimp [buildOutState] at this
      rw [this]
      exact hf
    dsimp only
    by_cases hemp : B.tasks.isEmpty
    · rw [if_pos hemp]
      exact hBf
    · rw [if_neg hemp, if_pos hBf]
      have := (seqLoop_frame env B.dataset
        (env.timeframes.length * env.factors.length) B.tasks B.results
        B.results.length B.st).1
      dsimp only
      rw [this]
      exact hBf

/-- Without a startup-class pool failure, the sticky flag never
changes, whatever else happens during the call. -/
theorem explore_all_flag_no_startup (env : ExplorerEnv Sig) (st : ExpState)
    (O : PoolOracle) (hpf : O.poolFail = none) :
    ((explore_all_factors env st O).2).process_pool_supported =
      st.process_pool_supported := by
  unfold explore_all_factors
  dsimp only
  rcases hb : _build_tasks env { st with progress_logged := 0, progress_log := [] }
    with ⟨m, st1⟩ | B
  · have := (buildTimeframeLoop_outframe env
      (env.timeframes.length * env.factors.length) env.timeframes
      ⟨[], [], [], 0, { st with progress_logged := 0, progress_log := [] }⟩).1
    unfold _build_tasks at hb
    rw [hb] at this
    dsimp [buildOutState] at this
    dsimp only
    exact this
  · have hBf : B.st.process_pool_supported = st.process_pool_supported := by
      have := (buildTimeframeLoop_outframe env
        (env.timeframes.length * env.factors.length) env.timeframes
        ⟨[], [], [], 0, { st with progress_logged := 0, progress_log := [] }⟩).1
      unfold _build_tasks at hb
      rw [hb] at this
      dsimp [buildOutState] at this
      exact this
    dsimp only
    by_cases hemp : B.tasks.isEmpty
    · rw [if_pos hemp]
      exact hBf
    · rw [if_neg hemp]
      by_cases hflag : B.st.process_pool_supported = false
      · rw [if_pos hflag]
        have := (seqLoop_frame env B.dataset
          (env.timeframes.length * env.factors.length) B.tasks B.results
          B.results.length B.st).1
        dsimp only
        rw [this]
        exact hBf
      · rw [if_neg hflag]
        rcases hp : poolLoop env B.tasks B.dataset
            (env.timeframes.length * env.factors.length) O O.order 0 B.results
            B.results.length B.st with ⟨res2, c2, st2⟩ | ⟨res2, c2, st2⟩ | ⟨m, st2⟩
        · have := (poolLoop_frame env B.tasks B.dataset
            (env.timeframes.length * env.factors.length) O O.order 0 B.results
            B.results.length B.st).1
          rw [hp] at this
          dsimp [PoolOutcome.state] at this
          dsimp only
          rw [this]
          exact hBf
        · exact absurd hp (poolLoop_none_not_startupFail env B.tasks B.dataset
            (env.timeframes.length * env.factors.length) O hpf _ _ _ _ _ _ _ _)
        · have := (poolLoop_frame env B.tasks B.dataset
            (env.timeframes.length * env.factors.length) O O.order 0 B.results
            B.results.length B.st).1
          rw [hp] at this
          dsimp [PoolOutcome.state] at this
          dsimp only
          rw [this]
          exact hBf

/-- A pool-creation failure: the call downgrades, warns once and still
returns a result map. -/
theorem explore_all_downgrade {Sig : Type} (env : ExplorerEnv Sig) (st : ExpState)
    (O : PoolOracle) (D : String → PyVal)
    (hload : ∀ tf ∈ env.timeframes, env.load env.symbol tf = .ok (D tf))
    (hflag : st.process_pool_supported = true)
    (htasks : gridMisses env st.cache.data D env.timeframes ≠ [])
    (hpf : O.poolFail = some 0) :
    ∃ res st2, explore_all_factors env st O = (.ok res, st2) ∧
      st2.process_pool_supported = false ∧
      st2.pool_warnings = st.pool_warnings + 1 := by
  obtain ⟨B, hB, j1, j2, j3, j4, j5, j6, j7, j8, j9, j10, j11⟩ :=
    buildTimeframeLoop_spec env (env.timeframes.length * env.factors.length) D
      env.timeframes
      ⟨[], [], [], 0, { st with progress_logged := 0, progress_log := [] }⟩ hload
  dsimp only at j1 j2 j3 j4 j5 j6 j7 j8 j9 j10 j11
  rw [List.nil_append] at j7
  have hbuild : _build_tasks env { st with progress_logged := 0, progress_log := [] } =
      .ok B := hB
  unfold explore_all_factors
  dsimp only
  rw [hbuild]
  dsimp only
  have hemp : B.tasks.isEmpty = false := by
    rw [j7]
    rcases hgm : gridMisses env st.cache.data D env.timeframes with _ | ⟨a, l⟩
    · exact absurd hgm htasks
    · rfl
  rw [hemp]
  rw [if_neg (fun hc : false = true => Bool.noConfusion hc)]
  have hBf : B.st.process_pool_supported = true := by rw [j5, hflag]
  rw [if_neg (by rw [hBf]; exact fun hc => Bool.noConfusion hc)]
  rw [poolLoop_trigger0 env B.tasks B.dataset
    (env.timeframes.length * env.factors.length) O hpf O.order B.results
    B.results.length B.st]
  dsimp only
  obtain ⟨f1, f2, _, _⟩ := seqLoop_frame env B.dataset
    (env.timeframes.length * env.factors.length) B.tasks B.results
    B.results.length
    { B.st with process_pool_supported := false,
                pool_warnings := B.st.pool_warnings + 1 }
  refine ⟨_, _, rfl, ?_, ?_⟩
  · rw [f1]
  · rw [f2]
    dsimp only
    rw [j6]

/-- C2: the POOL to SEQUENTIAL downgrade is sticky and happens exactly
on a startup-class pool failure: (i) once the flag is false one more
call keeps it false, (ii) it stays false over any sequence of later
calls, (iii) without a startup-class failure the flag never changes (in
particular a per-task worker error never downgrades), and (iv) a
pool-creation failure on a run with pending units returns normally,
permanently clears `process_pool_available` and logs exactly one
pool-degradation warning. -/
theorem c2_sticky_pool_downgrade :
    (∀ (Sig : Type) (env : ExplorerEnv Sig) (st : ExpState) (O : PoolOracle),
      st.process_pool_supported = false →
      process_pool_available ((explore_all_factors env st O).2) = false) ∧
    (∀ (Sig : Type) (env : ExplorerEnv Sig) (st : ExpState) (Os : List PoolOracle),
      st.process_pool_supported = false →
      process_pool_available
        (Os.foldl (fun s O => (explore_all_factors env s O).2) st) = false) ∧
    (∀ (Sig : Type) (env : ExplorerEnv Sig) (st : ExpState) (O : PoolOracle),
      O.poolFail = none →
      process_pool_available ((explore_all_factors env st O).2) =
        process_pool_available st) ∧
    (∀ (Sig : Type) (env : ExplorerEnv Sig) (st : ExpState) (O : PoolOracle)
       (D : String → PyVal),
      (∀ tf ∈ env.timeframes, env.load env.symbol tf = .ok (D tf)) →
      st.process_pool_supported = true →
      gridMisses env st.cache.data D env.timeframes ≠ [] →
      O.poolFail = some 0 →
      ∃ res st2, explore_all_factors env st O = (.ok res, st2) ∧
        st2.process_pool_supported = false ∧
        st2.pool_warnings = st.pool_warnings + 1) := by
  refine ⟨?_, ?_, ?_, ?_⟩
  · intro Sig env st O hf
    exact explore_all_flag_sticky env st O hf
  · intro Sig env st Os hf
    induction Os generalizing st with
    | nil => exact hf
    | cons O rest ih =>
        rw [List.foldl_cons]
        exact ih _ (explore_all_flag_sticky env st O hf)
  · intro Sig env st O hpf
    exact explore_all_flag_no_startup env st O hpf
  · intro Sig env st O D hload hflag htasks hpf
    exact explore_all_downgrade env st O D hload hflag htasks hpf

end StickyLemmas

/-- C2 witness: a fresh explorer, a pool-creation failure, one pending
unit — the call returns, clears the flag and warns once; afterwards the
flag also survives a further benign call as false. -/
theorem c2_sticky_pool_downgrade_witness :
    (∃ res st2, explore_all_factors envOne { } oCreateFail = (.ok res, st2) ∧
      st2.process_pool_supported = false ∧
      st2.pool_warnings = ({ } : ExpState).pool_warnings + 1) ∧
    process_pool_available
      ((explore_all_factors envOne
        { process_pool_supported := false } oSix).2) = false := by
  constructor
  · refine c2_sticky_pool_downgrade.2.2.2 Nat envOne { } oCreateFail DW ?_ rfl ?_ rfl
    · intro tf htf
      have htf2 : tf ∈ ["1m"] := htf
      rw [List.mem_singleton] at htf2
      subst htf2
      rfl
    · exact fun hc => List.noConfusion hc
  · exact c2_sticky_pool_downgrade.1 Nat envOne { process_pool_supported := false } oSix rfl

section PointwiseLemmas

variable {Sig : Type}

/-- Two runs from the same instance state produce pointwise-equal
result maps with the same key set, whatever their pool oracles inject,
as long as both completion orders schedule every pending unit exactly
once. -/
theorem explore_all_pointwise (env : ExplorerEnv Sig) (st : ExpState)
    (O O2 : PoolOracle) (D : String → PyVal)
    (hload : ∀ tf ∈ env.timeframes, env.load env.symbol tf = .ok (D tf))
    (hkeys : (allKeys env).Nodup)
    (horder : List.Perm O.order
      (List.range (gridMisses env st.cache.data D env.timeframes).length))
    (horder2 : List.Perm O2.order
      (List.range (gridMisses env st.cache.data D env.timeframes).length))
    (hcomp : ∀ t ∈ gridMisses env st.cache.data D env.timeframes,
      ∃ p, localResult env t = .ok p) :
    ∃ res st2 res2 st3,
      explore_all_factors env st O = (.ok res, st2) ∧
      explore_all_factors env st O2 = (.ok res2, st3) ∧
      List.Perm (res.map Prod.fst) (res2.map Prod.fst) ∧
      (∀ k, dictGet res k = dictGet res2 k) := by
  obtain ⟨res, st2, he, hperm, htask, hhit⟩ :=
    explore_all_spec env st O D hload hkeys horder hcomp
  obtain ⟨res2, st3, he2, hperm2, htask2, hhit2⟩ :=
    explore_all_spec env st O2 D hload hkeys horder2 hcomp
  refine ⟨res, st2, res2, st3, he, he2, hperm.trans hperm2.symm, ?_⟩
  intro k
  by_cases hk : k ∈ allKeys env
  · have hpart := grid_partition env st.cache.data D env.timeframes
    have hk2 : k ∈ (gridHitPairs env st.cache.data D env.timeframes).map Prod.fst ++
        (gridMisses env st.cache.data D env.timeframes).map WorkTask.key :=
      hpart.mem_iff.mpr hk
    rcases List.mem_append.mp hk2 with h | h
    · obtain ⟨kp, hkp, hk1⟩ := List.mem_map.mp h
      rw [← hk1, hhit kp hkp, hhit2 kp hkp]
    · obtain ⟨t, ht, hk1⟩ := List.mem_map.mp h
      rw [← hk1, htask t ht, htask2 t ht]
  · have h1 : dictGet res k = none :=
      (dictGet_eq_none_iff _ _).mpr fun hc => hk (hperm.mem_iff.mp hc)
    have h2 : dictGet res2 k = none :=
      (dictGet_eq_none_iff _ _).mpr fun hc => hk (hperm2.mem_iff.mp hc)
    rw [h1, h2]

end PointwiseLemmas

section ClaimsC1C3C4

variable {Sig : Type}

/-- C1 (amended): whenever every dataset loads, the grid keys are
pairwise distinct, the completion order schedules every pending unit
exactly once and every pending unit computes successfully on the local
path, `explore_all_factors` returns a map with exactly N×M keys —
whatever mix of cache hits, worker failures, pool startup failures and
sticky-mode downgrades occurs.  (The success hypothesis on the local
computations is necessary: see the counterexample, where a unit whose
local computation raises is skipped by the sequential executor.) -/
theorem c1_completeness (env : ExplorerEnv Sig) (st : ExpState) (O : PoolOracle)
    (D : String → PyVal)
    (hload : ∀ tf ∈ env.timeframes, env.load env.symbol tf = .ok (D tf))
    (hkeys : (allKeys env).Nodup)
    (horder : List.Perm O.order
      (List.range (gridMisses env st.cache.data D env.timeframes).length))
    (hcomp : ∀ t ∈ gridMisses env st.cache.data D env.timeframes,
      ∃ p, localResult env t = .ok p) :
    ∃ res st2, explore_all_factors env st O = (.ok res, st2) ∧
      res.length = env.timeframes.length * env.factors.length := by
  obtain ⟨res, st2, he, hperm, _, _⟩ :=
    explore_all_spec env st O D hload hkeys horder hcomp
  refine ⟨res, st2, he, ?_⟩
  have hl := hperm.length_eq
  rw [List.length_map] at hl
  rw [hl, allKeys_length]

/-- C1 counterexample: one timeframe, one indicator whose computation
permanently fails; pool creation fails, the instance downgrades to
SEQUENTIAL, the unit's local computation raises, the sequential
executor logs and skips it — and the call returns an *empty* map (0
keys) instead of the claimed N×M = 1. -/
theorem c1_counterexample_sequential_drop :
    ∃ st2, explore_all_factors envBad { } oCreateFail = (Except.ok [], st2) ∧
      ([] : List (String × Payload)).length ≠
        envBad.timeframes.length * envBad.factors.length :=
  ⟨(explore_all_factors envBad { } oCreateFail).2, rfl, by decide⟩

/-- C1 witness: Scenario-A-sized grid, all computations succeed — the
map has exactly 2 × 3 keys. -/
theorem c1_completeness_witness :
    ∃ res st2, explore_all_factors envA { } oSix = (.ok res, st2) ∧
      res.length = envA.timeframes.length * envA.factors.length :=
  c1_completeness envA { } oSix DW (fun tf _ => rfl) (by decide)
    (List.Perm.refl _)
    (by
      intro t ht
      unfold gridMisses at ht
      obtain ⟨tf, htf, hm⟩ := List.mem_flatMap.mp ht
      obtain ⟨f, hf, heq⟩ := List.mem_map.mp hm
      subst heq
      unfold missesOf at hf
      have hf2 : f ∈ [facOk "A", facOk "B", facOk "C"] :=
        List.mem_of_mem_filter hf
      fin_cases hf2 <;> exact ⟨_, rfl⟩)

/-- C3: in POOL mode with no startup failure, when exactly one unit's
future raises inside its worker, the batch still returns; the failed
unit is recomputed locally and its key carries exactly the payload a
direct synchronous `explore_single_factor` call on the same data
produces; and the whole map is pointwise equal to the map of the
failure-free run — no other unit is affected. -/
theorem c3_per_unit_fault_tolerance (env : ExplorerEnv Sig) (st : ExpState)
    (O : PoolOracle) (D : String → PyVal) (i0 : Nat)
    (hload : ∀ tf ∈ env.timeframes, env.load env.symbol tf = .ok (D tf))
    (hkeys : (allKeys env).Nodup)
    (horder : List.Perm O.order
      (List.range (gridMisses env st.cache.data D env.timeframes).length))
    (hcomp : ∀ t ∈ gridMisses env st.cache.data D env.timeframes,
      ∃ p, localResult env t = .ok p)
    (hflag : st.process_pool_supported = true)
    (hpf : O.poolFail = none)
    (hi0 : i0 < (gridMisses env st.cache.data D env.timeframes).length)
    (hfail : ∀ j, O.taskFail j = true ↔ j = i0) :
    ∃ res st2 res2 st3 p,
      explore_all_factors env st O = (.ok res, st2) ∧
      explore_single_factor env st
        ((gridMisses env st.cache.data D env.timeframes).get ⟨i0, hi0⟩).timeframe
        ((gridMisses env st.cache.data D env.timeframes).get ⟨i0, hi0⟩).factor
        (some ((gridMisses env st.cache.data D env.timeframes).get ⟨i0, hi0⟩).data) =
        (.ok p, st) ∧
      dictGet res
        ((gridMisses env st.cache.data D env.timeframes).get ⟨i0, hi0⟩).key =
        some p ∧
      explore_all_factors env st ⟨O.order, fun _ => false, none⟩ = (.ok res2, st3) ∧
      (∀ k, dictGet res k = dictGet res2 k) := by
  obtain ⟨res, st2, res2, st3, he, he2, _, hpt⟩ :=
    explore_all_pointwise env st O ⟨O.order, fun _ => false, none⟩ D hload hkeys
      horder horder hcomp
  obtain ⟨resS, st2S, heS, _, htask, _⟩ :=
    explore_all_spec env st O D hload hkeys horder hcomp
  have hres1 : resS = res := by
    rw [he] at heS
    have h1 := congrArg Prod.fst heS
    dsimp only at h1
    exact (Except.ok.inj h1).symm
  have ht0 : (gridMisses env st.cache.data D env.timeframes).get ⟨i0, hi0⟩ ∈
      gridMisses env st.cache.data D env.timeframes := List.get_mem _ _ _
  obtain ⟨p, hp⟩ := hcomp _ ht0
  refine ⟨res, st2, res2, st3, p, he, ?_, ?_, he2, hpt⟩
  · show (_compute_locally env _ _ _, st) = (.ok p, st)
    have hp2 : _compute_locally env
        ((gridMisses env st.cache.data D env.timeframes).get ⟨i0, hi0⟩).timeframe
        ((gridMisses env st.cache.data D env.timeframes).get ⟨i0, hi0⟩).factor
        ((gridMisses env st.cache.data D env.timeframes).get ⟨i0, hi0⟩).data =
        .ok p := hp
    rw [hp2]
  · have := htask _ ht0
    rw [hres1] at this
    rw [this, localValD_eq hp]

/-- C4: for the same inputs and a fresh POOL-mode instance, a run whose
pool never fails and a run whose pool creation fails immediately (and
is therefore forced into SEQUENTIAL mode) return maps with the same key
set and pointwise-equal payload values. -/
theorem c4_mode_independence (env : ExplorerEnv Sig) (st : ExpState)
    (Opool Oseq : PoolOracle) (D : String → PyVal)
    (hload : ∀ tf ∈ env.timeframes, env.load env.symbol tf = .ok (D tf))
    (hkeys : (allKeys env).Nodup)
    (horder : List.Perm Opool.order
      (List.range (gridMisses env st.cache.data D env.timeframes).length))
    (horder2 : List.Perm Oseq.order
      (List.range (gridMisses env st.cache.data D env.timeframes).length))
    (hcomp : ∀ t ∈ gridMisses env st.cache.data D env.timeframes,
      ∃ p, localResult env t = .ok p)
    (hflag : st.process_pool_supported = true)
    (hpoolok : Opool.poolFail = none)
    (hworkers : ∀ j, Opool.taskFail j = false)
    (hcreate : Oseq.poolFail = some 0) :
    ∃ res st2 res2 st3,
      explore_all_factors env st Opool = (.ok res, st2) ∧
      explore_all_factors env st Oseq = (.ok res2, st3) ∧
      List.Perm (res.map Prod.fst) (res2.map Prod.fst) ∧
      (∀ k, dictGet res k = dictGet res2 k) :=
  explore_all_pointwise env st Opool Oseq D hload hkeys horder horder2 hcomp

/-- C3 witness: six units, the third one fails in its worker; the batch
returns, the failed unit carries its direct synchronous value, and the
map is pointwise the failure-free map. -/
theorem c3_per_unit_fault_tolerance_witness :
    ∃ res st2 res2 st3 p,
      explore_all_factors envA { } oOneFail = (.ok res, st2) ∧
      explore_single_factor envA { }
        ((gridMisses envA ({ } : ExpState).cache.data DW
          envA.timeframes).get ⟨2, by decide⟩).timeframe
        ((gridMisses envA ({ } : ExpState).cache.data DW
          envA.timeframes).get ⟨2, by decide⟩).factor
        (some ((gridMisses envA ({ } : ExpState).cache.data DW
          envA.timeframes).get ⟨2, by decide⟩).data) = (.ok p, { }) ∧
      dictGet res
        ((gridMisses envA ({ } : ExpState).cache.data DW
          envA.timeframes).get ⟨2, by decide⟩).key = some p ∧
      explore_all_factors envA { } ⟨oOneFail.order, fun _ => false, none⟩ =
        (.ok res2, st3) ∧
      (∀ k, dictGet res k = dictGet res2 k) :=
  c3_per_unit_fault_tolerance envA { } oOneFail DW 2 (fun tf _ => rfl) (by decide)
    (List.Perm.refl _)
    (by
      intro t ht
      unfold gridMisses at ht
      obtain ⟨tf, htf, hm⟩ := List.mem_flatMap.mp ht
      obtain ⟨f, hf, heq⟩ := List.mem_map.mp hm
      subst heq
      unfold missesOf at hf
      have hf2 : f ∈ [facOk "A", facOk "B", facOk "C"] :=
        List.mem_of_mem_filter hf
      fin_cases hf2 <;> exact ⟨_, rfl⟩)
    rfl rfl (by decide) (fun j => by
      show decide (j = 2) = true ↔ j = 2
      exact decide_eq_true_iff)

/-- C4 witness: Scenario-A-sized grid, one failure-free POOL run and
one run with a pool-creation failure — same key set, equal payloads. -/
theorem c4_mode_independence_witness :
    ∃ res st2 res2 st3,
      explore_all_factors envA { } oSix = (.ok res, st2) ∧
      explore_all_factors envA { } oCreateFail6 = (.ok res2, st3) ∧
      List.Perm (res.map Prod.fst) (res2.map Prod.fst) ∧
      (∀ k, dictGet res k = dictGet res2 k) :=
  c4_mode_independence envA { } oSix oCreateFail6 DW (fun tf _ => rfl) (by decide)
    (List.Perm.refl _) (List.Perm.refl _)
    (by
      intro t ht
      unfold gridMisses at ht
      obtain ⟨tf, htf, hm⟩ := List.mem_flatMap.mp ht
      obtain ⟨f, hf, heq⟩ := List.mem_map.mp hm
      subst heq
      unfold missesOf at hf
      have hf2 : f ∈ [facOk "A", facOk "B", facOk "C"] :=
        List.mem_of_mem_filter hf
      fin_cases hf2 <;> exact ⟨_, rfl⟩)
    rfl rfl (fun j => rfl) rfl

end ClaimsC1C3C4

section IdempotenceClaim

variable {Sig : Type}

/-- C5: `explore_all_factors` is idempotent against an unchanged
dataset.  From an empty cache over a 2-timeframe, 3-indicator grid, the
first run returns 6 results and leaves cache statistics
`hits = 0, misses = 6, stores = 6`; a second identical run returns a
pointwise-identical result map and changes the statistics by exactly
`hits +6, misses +0, stores +0` — in particular `stores` does not
increase on the second call. -/
theorem c5_idempotent_rerun (env : ExplorerEnv Sig) (st : ExpState)
    (O1 O2 : PoolOracle) (D : String → PyVal)
    (hload : ∀ tf ∈ env.timeframes, env.load env.symbol tf = .ok (D tf))
    (hkeys : (allKeys env).Nodup)
    (hck : ((cacheWrites env (gridMisses env
      ([] : List (CacheKey × Payload)) D env.timeframes)).map Prod.fst).Nodup)
    (hsig : ∀ tf ∈ env.timeframes,
      (FactorCache.compute_signature env.ser (D tf)).isSome = true)
    (hflag : st.process_pool_supported = true)
    (hdata0 : st.cache.data = [])
    (hstats0 : st.cache.stats = {})
    (hN : env.timeframes.length = 2)
    (hM : env.factors.length = 3)
    (hpf1 : O1.poolFail = none)
    (horder1 : List.Perm O1.order
      (List.range (env.timeframes.length * env.factors.length)))
    (hcomp : ∀ tf ∈ env.timeframes, ∀ f ∈ env.factors,
      ∃ p, _compute_locally env tf f (D tf) = .ok p)
    (hO2 : O2.order = []) (hpf2 : O2.poolFail = none) :
    ∃ res1 st1 res2 st2,
      explore_all_factors env st O1 = (.ok res1, st1) ∧
      explore_all_factors env st1 O2 = (.ok res2, st2) ∧
      res1.length = 6 ∧
      st1.cache.stats.hits = 0 ∧
      st1.cache.stats.misses = 6 ∧
      st1.cache.stats.stores = 6 ∧
      st2.cache.stats.hits = st1.cache.stats.hits + 6 ∧
      st2.cache.stats.misses = st1.cache.stats.misses ∧
      st2.cache.stats.stores = st1.cache.stats.stores ∧
      (∀ k, dictGet res2 k = dictGet res1 k) ∧
      List.Perm (res2.map Prod.fst) (res1.map Prod.fst) := by
  have hTM1 : gridMisses env st.cache.data D env.timeframes =
      env.timeframes.flatMap fun tf => env.factors.map fun f =>
        ⟨tf, f, D tf, FactorCache.compute_signature env.ser (D tf)⟩ := by
    rw [hdata0, gridMisses_empty_cache]
  have hTM1len : (gridMisses env st.cache.data D
      env.timeframes).length = env.timeframes.length * env.factors.length := by
    rw [hTM1]
    exact length_flatMap_const _ _ _ fun tf _ => by rw [List.length_map]
  have hGH1 : gridHitPairs env st.cache.data D env.timeframes = [] := by
    rw [hdata0, gridHitPairs_empty_cache]
  have hmemTM1 : ∀ tf ∈ env.timeframes, ∀ f ∈ env.factors,
      (⟨tf, f, D tf, FactorCache.compute_signature env.ser (D tf)⟩ : WorkTask Sig) ∈
        gridMisses env st.cache.data D env.timeframes := by
    intro tf htf f hf
    rw [hTM1]
    exact List.mem_flatMap.mpr ⟨tf, htf, List.mem_map.mpr ⟨f, hf, rfl⟩⟩
  have hcomp1 : ∀ t ∈ gridMisses env st.cache.data D env.timeframes,
      ∃ p, localResult env t = .ok p := by
    intro t ht
    rw [hdata0] at ht
    obtain ⟨tf, htf, f, hf, heq⟩ := gridMisses_mem_struct env _ D _ ht
    subst heq
    exact hcomp tf htf f hf
  have horder1' : List.Perm O1.order
      (List.range (gridMisses env st.cache.data D
        env.timeframes).length) := by
    rw [hTM1len]
    exact horder1
  obtain ⟨res1, st1, h1eq, h1perm, h1miss, h1hit, h1data, h1hits, h1misses,
    h1stores, h1flag, h1warn⟩ :=
    explore_all_benign env st O1 D hload hkeys hflag hpf1 horder1' hcomp1
  have h1hits0 : st1.cache.stats.hits = 0 := by
    rw [h1hits, hGH1, hstats0]
    rfl
  have h1misses6 : st1.cache.stats.misses = 6 := by
    rw [h1misses, hTM1len, hstats0, hN, hM]
  have hfilterAll : ((tasksAt (gridMisses env st.cache.data D
      env.timeframes) O1.order).filter fun t => t.signature.isSome) =
      tasksAt (gridMisses env st.cache.data D env.timeframes)
        O1.order := by
    rw [List.filter_eq_self]
    intro t ht
    have ht2 := mem_of_mem_tasksAt _ _ ht
    rw [hdata0] at ht2
    obtain ⟨tf, htf, f, hf, heq⟩ := gridMisses_mem_struct env _ D _ ht2
    subst heq
    exact hsig tf htf
  have htasksAtlen : (tasksAt (gridMisses env st.cache.data D
      env.timeframes) O1.order).length =
      env.timeframes.length * env.factors.length := by
    rw [(tasksAt_perm _ _ horder1').length_eq, hTM1len]
  have h1stores6 : st1.cache.stats.stores = 6 := by
    rw [h1stores, hfilterAll, htasksAtlen, hstats0, hN, hM]
  have hres1len : res1.length = 6 := by
    have h1 := h1perm.length_eq
    rw [List.length_map, allKeys_length, hN, hM] at h1
    exact h1
  have hck2 : ((cacheWrites env (gridMisses env st.cache.data D
      env.timeframes)).map Prod.fst).Nodup := by
    rw [hdata0]
    exact hck
  have hpermW : List.Perm
      (cacheWrites env (tasksAt (gridMisses env st.cache.data D
        env.timeframes) O1.order))
      (cacheWrites env (gridMisses env st.cache.data D
        env.timeframes)) := by
    unfold cacheWrites
    exact ((tasksAt_perm _ _ horder1').filter _).map _
  have hndW : ((cacheWrites env (tasksAt (gridMisses env
      st.cache.data D env.timeframes) O1.order)).map Prod.fst).Nodup :=
    (hpermW.map Prod.fst).nodup_iff.mpr hck2
  have hcv : ∀ tf ∈ env.timeframes, ∀ f ∈ env.factors,
      cachedVal env st1.cache.data tf
        (FactorCache.compute_signature env.ser (D tf)) f =
      some (localValD env ⟨tf, f, D tf,
        FactorCache.compute_signature env.ser (D tf)⟩) := by
    intro tf htf f hf
    obtain ⟨s, hs⟩ := Option.isSome_iff_exists.mp (hsig tf htf)
    have hkey : FactorCache.make_key env.symbol tf f.name
        (FactorCache.compute_signature env.ser (D tf)) =
        some (env.symbol, tf, f.name, s) := by
      rw [hs]
      rfl
    have hmemW : ((env.symbol, tf, f.name, s),
        localValD env (⟨tf, f, D tf,
          FactorCache.compute_signature env.ser (D tf)⟩ : WorkTask Sig)) ∈
        cacheWrites env (tasksAt (gridMisses env st.cache.data D
          env.timeframes) O1.order) := by
      rw [hpermW.mem_iff]
      unfold cacheWrites
      refine List.mem_map.mpr ⟨⟨tf, f, D tf,
        FactorCache.compute_signature env.ser (D tf)⟩, ?_, ?_⟩
      · exact List.mem_filter.mpr ⟨hmemTM1 tf htf f hf, hsig tf htf⟩
      · rw [hs]
        rfl
    unfold cachedVal
    rw [hkey, h1data]
    exact dictGet_dictSets_of_mem _ _ hndW hmemW
  have hhitsOfAll : ∀ tf ∈ env.timeframes,
      hitsOf env st1.cache.data tf
        (FactorCache.compute_signature env.ser (D tf)) env.factors =
        env.factors := by
    intro tf htf
    unfold hitsOf
    rw [List.filter_eq_self]
    intro f hf
    rw [hcv tf htf f hf]
    rfl
  have hmissesOfNil : ∀ tf ∈ env.timeframes,
      missesOf env st1.cache.data tf
        (FactorCache.compute_signature env.ser (D tf)) env.factors = [] := by
    intro tf htf
    unfold missesOf
    rw [List.filter_eq_nil_iff]
    intro f hf
    rw [hcv tf htf f hf]
    simp
  have hTM2nil : gridMisses env st1.cache.data D env.timeframes =
      [] := by
    unfold gridMisses
    refine flatMap_eq_nil_of _ _ fun tf htf => ?_
    rw [hmissesOfNil tf htf, List.map_nil]
  have hGH2len : (gridHitPairs env st1.cache.data D env.timeframes).length =
      env.timeframes.length * env.factors.length := by
    unfold gridHitPairs
    refine length_flatMap_const _ _ _ fun tf htf => ?_
    unfold hitPairs
    rw [hhitsOfAll tf htf, List.length_map]
  have horder2 : List.Perm O2.order
      (List.range (gridMisses env st1.cache.data D
        env.timeframes).length) := by
    rw [hTM2nil, hO2]
    simp
  have hcomp2 : ∀ t ∈ gridMisses env st1.cache.data D env.timeframes,
      ∃ p, localResult env t = .ok p := by
    intro t ht
    rw [hTM2nil] at ht
    exact absurd ht (List.not_mem_nil t)
  have hflag1 : st1.process_pool_supported = true := by
    rw [h1flag]
    exact hflag
  obtain ⟨res2, st2, h2eq, h2perm, h2miss, h2hit, h2data, h2hits, h2misses,
    h2stores, h2flag, h2warn⟩ :=
    explore_all_benign env st1 O2 D hload hkeys hflag1 hpf2 horder2 hcomp2
  have h2hitsD : st2.cache.stats.hits = st1.cache.stats.hits + 6 := by
    rw [h2hits, hGH2len, hN, hM]
  have h2missesD : st2.cache.stats.misses = st1.cache.stats.misses := by
    rw [h2misses, hTM2nil]
    rfl
  have h2storesD : st2.cache.stats.stores = st1.cache.stats.stores := by
    rw [h2stores, hTM2nil, tasksAt_nil]
    rfl
  have hpoint : ∀ k, dictGet res2 k = dictGet res1 k := by
    intro k
    by_cases hk : k ∈ allKeys env
    · obtain ⟨tf, htf, f, hf, hkeq⟩ := allKeys_mem_struct env hk
      subst hkeq
      have hr1 : dictGet res1 (tf ++ "_" ++ f.name) =
          some (localValD env (⟨tf, f, D tf,
            FactorCache.compute_signature env.ser (D tf)⟩ : WorkTask Sig)) :=
        h1miss _ (hmemTM1 tf htf f hf)
      have hkp : (tf ++ "_" ++ f.name,
          localValD env (⟨tf, f, D tf,
            FactorCache.compute_signature env.ser (D tf)⟩ : WorkTask Sig)) ∈
          gridHitPairs env st1.cache.data D env.timeframes := by
        unfold gridHitPairs
        refine List.mem_flatMap.mpr ⟨tf, htf, ?_⟩
        unfold hitPairs
        rw [hhitsOfAll tf htf]
        refine List.mem_map.mpr ⟨f, hf, ?_⟩
        rw [hcv tf htf f hf]
        rfl
      have hr2 := h2hit _ hkp
      rw [hr2, hr1]
    · have h1none : dictGet res1 k = none := by
        rw [dictGet_eq_none_iff]
        intro hc
        exact hk (h1perm.mem_iff.mp hc)
      have h2none : dictGet res2 k = none := by
        rw [dictGet_eq_none_iff]
        intro hc
        exact hk (h2perm.mem_iff.mp hc)
      rw [h1none, h2none]
  exact ⟨res1, st1, res2, st2, h1eq, h2eq, hres1len, h1hits0, h1misses6,
    h1stores6, h2hitsD, h2missesD, h2storesD, hpoint, h2perm.trans h1perm.symm⟩

end IdempotenceClaim

section ProgressLemmas

variable {Sig : Type}

theorem LogInv.mono {st : ExpState} {c c2 : Nat} (h : LogInv st c) (hc : c ≤ c2) :
    LogInv st c2 :=
  ⟨h.1, h.2.1, h.2.2.trans hc⟩

theorem LogInv.congr {st st2 : ExpState} {c : Nat}
    (hlog : st2.progress_log = st.progress_log)
    (hpl : st2.progress_logged = st.progress_logged)
    (h : LogInv st c) : LogInv st2 c := by
  refine ⟨?_, ?_, ?_⟩
  · rw [hlog]; exact h.1
  · rw [hlog, hpl]; exact h.2.1
  · rw [hpl]; exact h.2.2

theorem log_progress_loginv {st : ExpState} {c : Nat} (total : Nat)
    (h : LogInv st c) : LogInv (_log_progress st (c + 1) total) (c + 1) := by
  unfold _log_progress
  by_cases h0 : total = 0
  · rw [if_pos h0]
    exact h.mono (by omega)
  · rw [if_neg h0]
    have hpl : st.progress_logged ≤ c := h.2.2
    rw [if_neg (by omega)]
    refine ⟨?_, ?_, ?_⟩
    · dsimp only
      rw [List.chain'_append]
      refine ⟨h.1, List.chain'_singleton _, ?_⟩
      intro x hx y hy
      rw [List.head?_cons, Option.mem_def] at hy
      cases hy
      obtain ⟨hne, hx2⟩ := List.mem_getLast?_eq_getLast hx
      have hxmem : x ∈ st.progress_log := hx2 ▸ List.getLast_mem hne
      have := h.2.1 x hxmem
      omega
    · intro x hx
      dsimp only at hx ⊢
      rcases List.mem_append.mp hx with hx | hx
      · have := h.2.1 x hx
        omega
      · rw [List.mem_singleton] at hx
        omega
    · dsimp only
      omega

theorem buildFactorLoop_loginv (env : ExplorerEnv Sig) (total : Nat)
    (tf : String) (data : PyVal) (sig : Option String) :
    ∀ (fs : List (FactorCalculator Sig)) (acc : BuildAcc Sig),
    LogInv acc.st acc.completed →
    LogInv (buildFactorLoop env total tf data sig fs acc).st
      (buildFactorLoop env total tf data sig fs acc).completed := by
  intro fs
  induction fs with
  | nil => intro acc h; exact h
  | cons f rest ih =>
      intro acc h
      rcases hget : acc.st.cache.get env.symbol tf f.name sig with ⟨cached, cache2⟩
      simp only [buildFactorLoop, hget]
      rcases cached with _ | p
      · exact ih _ (h.congr rfl rfl)
      · refine ih _ ?_
        dsimp only
        exact log_progress_loginv total (h.congr rfl rfl)

theorem buildTimeframeLoop_loginv (env : ExplorerEnv Sig) (total : Nat) :
    ∀ (tfs : List String) (acc : BuildAcc Sig),
    LogInv acc.st acc.completed →
    (match buildTimeframeLoop env total tfs acc with
     | .ok B => LogInv B.st B.completed
     | .error (_, s) => List.Chain' (· < ·) s.progress_log) := by
  intro tfs
  induction tfs with
  | nil => intro acc h; exact h
  | cons tf rest ih =>
      intro acc h
      rcases hl : env.load env.symbol tf with m | data
      · simp only [buildTimeframeLoop, hl]
        exact h.1
      · simp only [buildTimeframeLoop, hl]
        refine ih _ ?_
        exact buildFactorLoop_loginv env total tf data _ env.factors
          { acc with dataset := dictSet acc.dataset tf data } (h.congr rfl rfl)

theorem seqLoop_loginv (env : ExplorerEnv Sig) (dataset : List (String × PyVal))
    (total : Nat) :
    ∀ (tasks : List (WorkTask Sig)) (results : List (String × Payload))
      (completed : Nat) (st : ExpState),
    LogInv st completed →
    LogInv (seqLoop env dataset total tasks results completed st).2
      (completed + tasks.length) := by
  intro tasks
  induction tasks with
  | nil => intro results completed st h; exact h.mono (by simp)
  | cons t rest ih =>
      intro results completed st h
      rcases hd : dictGet dataset t.timeframe with _ | d
      · simp only [seqLoop, hd]
        exact (ih results completed st h).mono (by rw [List.length_cons]; omega)
      · rcases hc : _compute_locally env t.timeframe t.factor d with m | q
        · simp only [seqLoop, hd, hc]
          exact (ih results completed st h).mono (by rw [List.length_cons]; omega)
        · simp only [seqLoop, hd, hc]
          by_cases hsig : t.signature.isSome
          · rw [if_pos hsig]
            have h2 : LogInv (_log_progress { st with cache :=
                (st.cache.set env.symbol t.timeframe t.factor.name t.signature q) }
                (completed + 1) total) (completed + 1) :=
              log_progress_loginv total (h.congr rfl rfl)
            have h3 := ih (dictSet results (t.timeframe ++ "_" ++ t.factor.name) q)
              (completed + 1) _ h2
            exact h3.mono (by rw [List.length_cons]; omega)
          · rw [if_neg hsig]
            have h2 := log_progress_loginv total h
            have h3 := ih (dictSet results (t.timeframe ++ "_" ++ t.factor.name) q)
              (completed + 1) _ h2
            exact h3.mono (by rw [List.length_cons]; omega)

theorem poolLoop_loginv (env : ExplorerEnv Sig) (tasks : List (WorkTask Sig))
    (dataset : List (String × PyVal)) (total : Nat) (O : PoolOracle) :
    ∀ (order : List Nat) (processed : Nat) (results : List (String × Payload))
      (completed : Nat) (st : ExpState),
    LogInv st completed →
    PoolOutcome.logOk
      (poolLoop env tasks dataset total O order processed results completed st) := by
  intro order
  induction order with
  | nil =>
      intro processed results completed st h
      simp only [poolLoop]
      by_cases hpf : O.poolFail = some processed
      · rw [if_pos hpf]; exact h
      · rw [if_neg hpf]; exact h
  | cons i rest ih =>
      intro processed results completed st h
      by_cases hpf : O.poolFail = some processed
      · simp only [poolLoop]
        rw [if_pos hpf]
        exact h
      · rcases ht : tasks[i]? with _ | t
        · simp only [poolLoop, ht]
          rw [if_neg hpf]
          exact h.1
        · have hstep : ∀ (q : Payload),
              LogInv (_log_progress
                (if t.signature.isSome then
                  ({ st with cache := (st.cache.set env.symbol t.timeframe
                      t.factor.name t.signature q) })
                 else st)
                (completed + 1) total) (completed + 1) := by
            intro q
            refine log_progress_loginv total (h.congr ?_ ?_)
            · by_cases hsg : t.signature.isSome
              · rw [if_pos hsg]
              · rw [if_neg hsg]
            · by_cases hsg : t.signature.isSome
              · rw [if_pos hsg]
              · rw [if_neg hsg]
          by_cases htf : O.taskFail i = true
          · rcases hd : dictGet dataset t.timeframe with _ | d
            · simp only [poolLoop, ht, htf, hd]
              rw [if_neg hpf]
              exact h.1
            · rcases hc : _compute_locally env t.timeframe t.factor d with m | q
              · simp only [poolLoop, ht, htf, hd, hc]
                rw [if_neg hpf]
                exact h.1
              · simp only [poolLoop, ht, htf, hd, hc]
                rw [if_neg hpf]
                exact ih _ _ _ _ (hstep q)
          · rcases hw : (_worker_task env t.timeframe t.factor t.data).map Prod.snd
                with m | q
            · rcases hd : dictGet dataset t.timeframe with _ | d
              · simp only [poolLoop, ht, htf, hw, hd]
                rw [if_neg hpf]
                exact h.1
              · rcases hc : _compute_locally env t.timeframe t.factor d with m2 | q2
                · simp only [poolLoop, ht, htf, hw, hd, hc]
                  rw [if_neg hpf]
                  exact h.1
                · simp only [poolLoop, ht, htf, hw, hd, hc]
                  rw [if_neg hpf]
                  exact ih _ _ _ _ (hstep q2)
            · simp only [poolLoop, ht, htf, hw]
              rw [if_neg hpf]
              exact ih _ _ _ _ (hstep q)

/-- C8 (amended): whenever the datasets load and the grid keys
`timeframe_factor` are pairwise distinct, the progress values logged
within one `explore_all_factors` call form a strictly increasing
sequence — over any oracle behaviour, including worker failures, pool
startup failures mid-run and raising computations.  (Distinct grid keys
are necessary: see the counterexample, where duplicate timeframes with
cache hits make the dispatch phase re-log smaller values.) -/
theorem c8_progress_strictly_increasing (env : ExplorerEnv Sig) (st : ExpState)
    (O : PoolOracle) (D : String → PyVal)
    (hload : ∀ tf ∈ env.timeframes, env.load env.symbol tf = .ok (D tf))
    (hkeys : (allKeys env).Nodup) :
    List.Chain' (· < ·) (((explore_all_factors env st O).2).progress_log) := by
  obtain ⟨B, hB, j1, j2, j3, j4, j5, j6, j7, j8, j9, j10, j11⟩ :=
    buildTimeframeLoop_spec env (env.timeframes.length * env.factors.length) D
      env.timeframes
      ⟨[], [], [], 0, { st with progress_logged := 0, progress_log := [] }⟩ hload
  dsimp only at j7 j8 j9
  rw [List.nil_append] at j7
  have hbuild : _build_tasks env { st with progress_logged := 0, progress_log := [] } =
      .ok B := hB
  have hinv0 : LogInv { st with progress_logged := 0, progress_log := [] } 0 := by
    refine ⟨List.chain'_nil, ?_, Nat.le_refl 0⟩
    intro x hx
    exact absurd hx (List.not_mem_nil x)
  have hinvB : LogInv B.st B.completed := by
    have := buildTimeframeLoop_loginv env (env.timeframes.length * env.factors.length)
      env.timeframes ⟨[], [], [], 0, { st with progress_logged := 0, progress_log := [] }⟩
      hinv0
    rw [hB] at this
    exact this
  -- the number of build-phase results equals the number of cache hits
  have hlenres : B.results.length =
      (gridHitPairs env st.cache.data D env.timeframes).length := by
    have hpart := grid_partition env st.cache.data D env.timeframes
    have hnd : ((gridHitPairs env st.cache.data D env.timeframes).map Prod.fst ++
        (gridMisses env st.cache.data D env.timeframes).map WorkTask.key).Nodup :=
      hpart.nodup_iff.mpr hkeys
    rw [List.nodup_append] at hnd
    have hkres : (dictSets ([] : List (String × Payload))
        (gridHitPairs env st.cache.data D env.timeframes)).map Prod.fst =
        [] ++ (gridHitPairs env st.cache.data D env.timeframes).map Prod.fst :=
      keys_dictSets_of_fresh _ _ (by intro k _ hc; exact absurd hc (List.not_mem_nil k))
        hnd.1
    rw [List.nil_append] at hkres
    rw [j9]
    have h1 := congrArg List.length hkres
    rw [List.length_map, List.length_map] at h1
    exact h1
  have hinvB2 : LogInv B.st B.results.length := by
    refine ⟨hinvB.1, hinvB.2.1, ?_⟩
    rw [hlenres]
    have := hinvB.2.2
    rw [j8] at this
    omega
  unfold explore_all_factors
  dsimp only
  rw [hbuild]
  dsimp only
  by_cases hemp : B.tasks.isEmpty
  · rw [if_pos hemp]
    exact hinvB.1
  · rw [if_neg hemp]
    by_cases hflag : B.st.process_pool_supported = false
    · rw [if_pos hflag]
      dsimp only
      exact (seqLoop_loginv env B.dataset
        (env.timeframes.length * env.factors.length) B.tasks B.results
        B.results.length B.st hinvB2).1
    · rw [if_neg hflag]
      have hpool := poolLoop_loginv env B.tasks B.dataset
        (env.timeframes.length * env.factors.length) O O.order 0 B.results
        B.results.length B.st hinvB2
      rcases hp : poolLoop env B.tasks B.dataset
          (env.timeframes.length * env.factors.length) O O.order 0 B.results
          B.results.length B.st with ⟨res2, c2, st2⟩ | ⟨res2, c2, st2⟩ | ⟨m, st2⟩
      · rw [hp] at hpool
        exact hpool.1
      · rw [hp] at hpool
        dsimp only
        exact (seqLoop_loginv env B.dataset
          (env.timeframes.length * env.factors.length) B.tasks res2 c2
          { st2 with process_pool_supported := false,
                     pool_warnings := st2.pool_warnings + 1 }
          (hpool.congr rfl rfl)).1
      · rw [hp] at hpool
        exact hpool

end ProgressLemmas

/-- C8 counterexample: on a run with a duplicated timeframe whose first
factor is already cached, the logged progress sequence is
`[1, 2, 3, 2, 3, 4]` — it repeats and decreases.  The `_log_progress`
guard only skips a value *equal* to the last recorded one, so after the
build phase has logged hits up to 3, the dispatch phase (which resumes
its count from the number of distinct result keys, here 1) re-logs 2
and 3.  The claim that the logged sequence is always strictly
increasing is therefore false as stated. -/
theorem c8_counterexample_duplicate_timeframes :
    ((explore_all_factors envDup stDup oThree).2).progress_log = [1, 2, 3, 2, 3, 4] ∧
    ¬ List.Chain' (· < ·) ([1, 2, 3, 2, 3, 4] : List Nat) :=
  ⟨rfl, by simp [List.chain'_cons]⟩

/-- Witness for C8 at a concrete instance: the one-unit environment,
empty cache, and an oracle that makes pool creation fail, exercising
the sequential fallback too. -/
theorem c8_progress_strictly_increasing_witness :
    List.Chain' (· < ·) (((explore_all_factors envOne { } oCreateFail).2).progress_log) :=
  c8_progress_strictly_increasing envOne { } oCreateFail DW (fun _ _ => rfl) (by decide)

/-- Witness for C5 at Scenario A: symbol `0700.HK`, timeframes
`1m`/`5m`, three indicators, empty cache, benign pool oracle. -/
theorem c5_idempotent_rerun_witness :
    ∃ res1 st1 res2 st2,
      explore_all_factors envA { } oSix = (.ok res1, st1) ∧
      explore_all_factors envA st1 oEmpty = (.ok res2, st2) ∧
      res1.length = 6 ∧
      st1.cache.stats.hits = 0 ∧
      st1.cache.stats.misses = 6 ∧
      st1.cache.stats.stores = 6 ∧
      st2.cache.stats.hits = st1.cache.stats.hits + 6 ∧
      st2.cache.stats.misses = st1.cache.stats.misses ∧
      st2.cache.stats.stores = st1.cache.stats.stores ∧
      (∀ k, dictGet res2 k = dictGet res1 k) ∧
      List.Perm (res2.map Prod.fst) (res1.map Prod.fst) :=
  c5_idempotent_rerun envA { } oSix oEmpty DW
    (fun _ _ => rfl) (by decide) (by decide) (fun _ _ => rfl) rfl rfl rfl rfl rfl
    rfl (by decide)
    (by
      intro tf _ f hf
      have hf2 : f ∈ [facOk "A", facOk "B", facOk "C"] := hf
      simp only [List.mem_cons, List.not_mem_nil, or_false] at hf2
      rcases hf2 with h | h | h <;> subst h <;> exact ⟨_, rfl⟩)
    rfl rfl

end ClaimTheorems

end HK
